import Mathlib

/-!
# Verification of the Hissy compiler and virtual machine

A shallow embedding, in Lean 4, of the parts of the Hissy toolchain
(a bytecode compiler and register VM for a small scripting language)
needed to settle the specification claims: the runtime value operations
(`src/vm/op.rs`), the static type system (`src/compiler/types.rs`),
the chunk/program bytecode codec (`src/compiler/chunk.rs`, `src/serial.rs`),
the mark-and-sweep garbage collector (`src/vm/gc.rs`), and the virtual
machine execution loop (`src/vm/mod.rs`, `src/vm/object.rs`).

Machine integers are modelled as `Int`/`Nat` with explicit wrapping where
the source wraps; `f64` payloads are modelled as rationals (`ℚ`), which is
exact for the finite values appearing in the claims; `String` values are
modelled as their UTF-8 byte lists (a Rust `String` is exactly a valid
UTF-8 byte sequence, so `String::from_utf8` of a written string's bytes
always succeeds and is inverse to `String::as_bytes`).
-/

namespace Hissy

/-- Error kinds, from `ErrorType` in `src/lib.rs` (the source's fourth
variant is its input/output error kind; `Io` here). -/
inductive ErrorType where
  | Syntax
  | Compilation
  | Execution
  | Io
deriving DecidableEq, Repr

/-- `HissyError(ErrorType, String, u16)` from `src/lib.rs`:
an error kind, a message, and a line number (0 when unknown). -/
structure HissyError where
  etype : ErrorType
  msg : String
  line : Nat
deriving DecidableEq, Repr

/-- `MAX_REGISTERS` from `src/vm/mod.rs`: a bytecode register byte below this
denotes a register, at or above it a constant-pool index. -/
def MAX_REGISTERS : Nat := 128

/-! ## Values and runtime operations (`src/vm/value.rs`, `src/vm/op.rs`)

`Value` is NaN-tagged in the source; the encoding is irrelevant to the claims,
so it is modelled as a plain discriminated union (the spec itself says the
two are equivalent).  Object pointers become abstract heap addresses. -/

/-- A Hissy runtime value (`Value` in `src/vm/value.rs`): nil, bool, 32-bit
integer, 64-bit float (modelled as `ℚ`), or a pointer to a heap object
(modelled as an address; the root/non-root flag only matters to the GC,
which is modelled separately). -/
inductive Value where
  | nil
  | bool (b : Bool)
  | int (i : Int)
  | real (q : ℚ)
  | obj (addr : Nat)
deriving DecidableEq, Repr

/-- Wrap an integer to the `i32` range, as Rust release-mode arithmetic does.
(Debug builds panic on overflow instead; no claim depends on overflow.) -/
def wrap32 (z : Int) : Int := (z + 2 ^ 31) % 2 ^ 32 - 2 ^ 31

/-- Truncated division of a rational, rounding toward zero: this is the `f64`
quotient truncation used by Rust's `%` on floats (`a % b = a - b * trunc (a/b)`). -/
def ratTrunc (q : ℚ) : Int := q.num.tdiv q.den

/-- Rust's `f64` `%` operator (remainder with the sign of the dividend),
modelled exactly on rationals: `a - b * trunc (a / b)`.  (For `b = 0` the
source produces NaN, which is outside this model; no claim divides by zero.) -/
def ratFRem (a b : ℚ) : ℚ := a - b * (ratTrunc (a / b) : ℚ)

/-- `f64::powf`, used by `Value::pow`.  The claims only inspect the *kind* of
the result (always `Real`), never its value; the payload is modelled exactly
for integral exponents and as `0` otherwise. -/
def ratPowf (a b : ℚ) : ℚ := if b.den = 1 then a ^ b.num else 0

/-- `Value::is_numeric` from `src/vm/op.rs`. -/
def Value.isNumeric : Value → Bool
  | .int _ => true
  | .real _ => true
  | _ => false

/-- `Value::cast_real` from `src/vm/op.rs` (panics on non-numeric values in the
source; only ever called under an `is_numeric` guard, the junk value `0` is
unreachable). -/
def Value.castReal : Value → ℚ
  | .int i => (i : ℚ)
  | .real q => q
  | _ => 0

/-- `NumPair` from `src/vm/op.rs`. -/
inductive NumPair where
  | ints (i1 i2 : Int)
  | reals (r1 r2 : ℚ)
  | nan

/-- `Value::get_num_pair` from `src/vm/op.rs`. -/
def Value.getNumPair (v1 v2 : Value) : NumPair :=
  if !v1.isNumeric then .nan
  else if !v2.isNumeric then .nan
  else match v1, v2 with
    | .int i1, .int i2 => .ints i1 i2
    | _, _ => .reals v1.castReal v2.castReal

/-- `Value::neg`. -/
def Value.neg : Value → Option Value
  | .int i => some (.int (wrap32 (-i)))
  | .real q => some (.real (-q))
  | _ => none

/-- `Value::add` (via the `basic_num_op!` macro in `src/vm/op.rs`). -/
def Value.add (v1 v2 : Value) : Option Value :=
  match v1.getNumPair v2 with
  | .ints i1 i2 => some (.int (wrap32 (i1 + i2)))
  | .reals r1 r2 => some (.real (r1 + r2))
  | .nan => none

/-- `Value::sub`. -/
def Value.sub (v1 v2 : Value) : Option Value :=
  match v1.getNumPair v2 with
  | .ints i1 i2 => some (.int (wrap32 (i1 - i2)))
  | .reals r1 r2 => some (.real (r1 - r2))
  | .nan => none

/-- `Value::mul`. -/
def Value.mul (v1 v2 : Value) : Option Value :=
  match v1.getNumPair v2 with
  | .ints i1 i2 => some (.int (wrap32 (i1 * i2)))
  | .reals r1 r2 => some (.real (r1 * r2))
  | .nan => none

/-- `Value::div` from `src/vm/op.rs`: always computes on reals, so the result
is a `Real` whenever both operands are numeric. -/
def Value.div (v1 v2 : Value) : Option Value :=
  if !v1.isNumeric || !v2.isNumeric then none
  else some (.real (v1.castReal / v2.castReal))

/-- `Value::pow` from `src/vm/op.rs`: always `powf` on reals. -/
def Value.pow (v1 v2 : Value) : Option Value :=
  if !v1.isNumeric || !v2.isNumeric then none
  else some (.real (ratPowf v1.castReal v2.castReal))

/-- `Value::modulo` from `src/vm/op.rs`: truncated remainder, then `+ |divisor|`
if negative.  The integer branch panics in the source when the divisor is `0`
or at `i32::MIN % -1` (Rust `%`/`abs` overflow); theorems about it carry the
corresponding hypotheses. -/
def Value.modulo (v1 v2 : Value) : Option Value :=
  match v1.getNumPair v2 with
  | .ints i1 i2 =>
      let r := Int.tmod i1 i2
      some (.int (if r < 0 then r + (i2.natAbs : Int) else r))
  | .reals r1 r2 =>
      let r := ratFRem r1 r2
      some (.real (if r < 0 then r + |r2| else r))
  | .nan => none

/-- `Value::not`. -/
def Value.notOp : Value → Option Value
  | .bool b => some (.bool (!b))
  | _ => none

/-- `Value::or`. -/
def Value.orOp (v1 v2 : Value) : Option Value :=
  match v1, v2 with
  | .bool b1, .bool b2 => some (.bool (b1 || b2))
  | _, _ => none

/-- `Value::and`. -/
def Value.andOp (v1 v2 : Value) : Option Value :=
  match v1, v2 with
  | .bool b1, .bool b2 => some (.bool (b1 && b2))
  | _, _ => none

/-- `Value::eq` from `src/vm/op.rs`: same-kind structural comparison, objects
by pointer identity, cross-kind comparisons false.  (`f64` equality on the
finite values modelled here agrees with `ℚ` equality.) -/
def Value.eqOp (v1 v2 : Value) : Bool :=
  match v1, v2 with
  | .nil, .nil => true
  | .bool b1, .bool b2 => b1 == b2
  | .int i1, .int i2 => i1 == i2
  | .real r1, .real r2 => r1 == r2
  | .obj p1, .obj p2 => p1 == p2
  | _, _ => false

/-- `Value::lth`. -/
def Value.lth (v1 v2 : Value) : Option Value :=
  match v1.getNumPair v2 with
  | .ints i1 i2 => some (.bool (i1 < i2))
  | .reals r1 r2 => some (.bool (r1 < r2))
  | .nan => none

/-- `Value::leq`. -/
def Value.leq (v1 v2 : Value) : Option Value :=
  match v1.getNumPair v2 with
  | .ints i1 i2 => some (.bool (i1 ≤ i2))
  | .reals r1 r2 => some (.bool (r1 ≤ r2))
  | .nan => none

/-- `Value::gth`. -/
def Value.gth (v1 v2 : Value) : Option Value :=
  match v1.getNumPair v2 with
  | .ints i1 i2 => some (.bool (i2 < i1))
  | .reals r1 r2 => some (.bool (r2 < r1))
  | .nan => none

/-- `Value::geq`. -/
def Value.geq (v1 v2 : Value) : Option Value :=
  match v1.getNumPair v2 with
  | .ints i1 i2 => some (.bool (i2 ≤ i1))
  | .reals r1 r2 => some (.bool (r2 ≤ r1))
  | .nan => none

/-! ## The static type system (`src/compiler/types.rs`) -/

/-- `PrimitiveType` from `src/compiler/types.rs`. -/
inductive PrimitiveType where
  | Nil
  | Bool
  | Int
  | Real
  | String
deriving DecidableEq, Repr

/-- `Type` from `src/compiler/types.rs`. -/
inductive Ty where
  | primitive (t : PrimitiveType)
  | list (t : Ty)
  | typedFunction (args : List Ty) (res : Ty)
  | untypedFunction (res : Ty)
  | nsTy (props : List (String × Ty))
  | any

mutual

/-- `Type::can_assign` from `src/compiler/types.rs`.  The source's
`TypedFunction` arm checks `args_ty1.len() == args_ty2.len()` and then zips
the two argument lists, requiring `t2.can_assign(t1)` pairwise; that
combination is expressed here by the parallel list recursion
`canAssignArgs` (length equality plus reversed pairwise assignability). -/
def Ty.canAssign : Ty → Ty → Bool
  | .primitive t1, other =>
      match other with
      | .primitive t2 => t1 == t2
      | _ => false
  | .list t1, other =>
      match other with
      | .list t2 => t1.canAssign t2
      | _ => false
  | .typedFunction args1 res1, other =>
      match other with
      | .typedFunction args2 res2 => Ty.canAssignArgs args1 args2 && res1.canAssign res2
      | _ => false
  | .untypedFunction res1, other =>
      match other with
      | .typedFunction _ res2 => res1.canAssign res2
      | .untypedFunction res2 => res1.canAssign res2
      | _ => false
  | .nsTy _, _ => false
  | .any, _ => true
termination_by t1 t2 => sizeOf t1 + sizeOf t2

/-- Arity check plus contravariant pairwise assignability of argument lists
(`args_ty1.len() == args_ty2.len() && args_ty1.iter().zip(args_ty2).all(|(t1,t2)| t2.can_assign(t1))`). -/
def Ty.canAssignArgs : List Ty → List Ty → Bool
  | [], [] => true
  | t1 :: l1, t2 :: l2 => t2.canAssign t1 && Ty.canAssignArgs l1 l2
  | _, _ => false
termination_by l1 l2 => sizeOf l1 + sizeOf l2

end

/-- `Type::is_numeric` from `src/compiler/types.rs`. -/
def Ty.isNumeric : Ty → Bool
  | .primitive .Int => true
  | .primitive .Real => true
  | _ => false

/-! ## Chunks and the constant pool (`src/compiler/chunk.rs`)

A `ChunkConstant`'s `Int` payload is stored in bytecode as a 4-byte
little-endian `i32` and its `Real` payload as the 8-byte IEEE-754 bit
pattern (`f64::to_le_bytes`); both are modelled here as the corresponding
unsigned bit patterns, which makes the byte codec exact.  Strings are
UTF-8 byte lists. -/

/-- `ChunkConstant` from `src/compiler/chunk.rs`.  `int` carries the `u32`
bit pattern of the `i32` payload, `real` the `u64` bit pattern of the `f64`
payload, `str` the UTF-8 bytes of the `String`. -/
inductive ChunkConstant where
  | nil
  | bool (b : Bool)
  | int (bits : Nat)
  | real (bits : Nat)
  | str (s : List Nat)
deriving DecidableEq, Repr

/-- `ChunkInfo` from `src/compiler/chunk.rs` (debug info: chunk name,
upvalue names, and the `(bytecode position, source line)` table). -/
structure ChunkInfo where
  name : List Nat
  upvalueNames : List (List Nat)
  lineNumbers : List (Nat × Nat)
deriving DecidableEq, Repr

/-- The empty `ChunkInfo` (`ChunkInfo::default()`). -/
def ChunkInfo.empty : ChunkInfo := ⟨[], [], []⟩

/-- `Chunk` from `src/compiler/chunk.rs`. -/
structure Chunk where
  nbRegisters : Nat
  constants : List ChunkConstant
  upvalues : List Nat
  code : List Nat
  debugInfo : ChunkInfo
deriving DecidableEq, Repr

/-- `Chunk::new()`. -/
def Chunk.new : Chunk := ⟨0, [], [], [], ChunkInfo.empty⟩

/-- `Program` from `src/compiler/chunk.rs`. -/
structure Program where
  debugInfo : Bool
  chunks : List Chunk
deriving DecidableEq, Repr

/-- `Chunk::compile_constant` from `src/compiler/chunk.rs`: pushes the
constant onto the pool and returns `MAX_REGISTERS + index` as the constant's
register byte; `u8::try_from` fails (a `Compilation` error, "Too many
constants required") when that exceeds 255.  Note the source pushes the
constant *before* the range check, so the pool grows even on failure. -/
def Chunk.compileConstant (c : Chunk) (val : ChunkConstant) :
    Chunk × Except HissyError Nat :=
  let reg := MAX_REGISTERS + c.constants.length
  let c' := { c with constants := c.constants ++ [val] }
  (c', if reg ≤ 255 then .ok reg
       else .error ⟨.Compilation, "Too many constants required", 0⟩)

/-! ## Helper lemmas about truncated remainders -/

/-- `canAssignArgs` is the arity check together with index-wise
contravariant assignability. -/
theorem canAssignArgs_iff (l1 l2 : List Ty) :
    Ty.canAssignArgs l1 l2 = true ↔
      (l1.length = l2.length ∧
       ∀ i, ∀ h1 : i < l1.length, ∀ h2 : i < l2.length,
         (l2.get ⟨i, h2⟩).canAssign (l1.get ⟨i, h1⟩) = true) := by
  induction l1 generalizing l2 with
  | nil =>
    cases l2 with
    | nil => simp [Ty.canAssignArgs]
    | cons t2 l2 => simp [Ty.canAssignArgs]
  | cons t1 l1 ih =>
    cases l2 with
    | nil => simp [Ty.canAssignArgs]
    | cons t2 l2 =>
      simp only [Ty.canAssignArgs, Bool.and_eq_true, ih, List.length_cons]
      constructor
      · rintro ⟨hhead, hlen, htail⟩
        refine ⟨by omega, ?_⟩
        intro i h1 h2
        match i with
        | 0 => exact hhead
        | i + 1 => exact htail i (by omega) (by omega)
      · rintro ⟨hlen, hall⟩
        exact ⟨hall 0 (by omega) (by omega), by omega,
          fun i h1 h2 => hall (i + 1) (by omega) (by omega)⟩

/-- **C9**: `TypedFunction(args1, r1)` accepts `TypedFunction(args2, r2)` iff
the arities match, `args2[i]` accepts `args1[i]` for every `i` (contravariant
parameters), and `r1` accepts `r2` (covariant result); and
`UntypedFunction(r1)` accepts exactly the function types whose result type
`r1` accepts. -/
theorem can_assign_function_spec (args1 args2 : List Ty) (r1 r2 : Ty) (t : Ty) :
    (Ty.canAssign (.typedFunction args1 r1) (.typedFunction args2 r2) = true ↔
      (args1.length = args2.length ∧
       (∀ i, ∀ h1 : i < args1.length, ∀ h2 : i < args2.length,
         (args2.get ⟨i, h2⟩).canAssign (args1.get ⟨i, h1⟩) = true) ∧
       r1.canAssign r2 = true)) ∧
    (Ty.canAssign (.untypedFunction r1) t = true ↔
      ((∃ a2 s2, t = .typedFunction a2 s2 ∧ r1.canAssign s2 = true) ∨
       (∃ s2, t = .untypedFunction s2 ∧ r1.canAssign s2 = true))) := by
  constructor
  · rw [Ty.canAssign, Bool.and_eq_true, canAssignArgs_iff]
    tauto
  · cases t <;> (simp [Ty.canAssign]; try aesop)

/-- Witness for C9: `(Int) -> Any` accepts `(Int) -> Int`, established
through the characterization theorem. -/
theorem can_assign_function_spec_witness :
    Ty.canAssign (.typedFunction [.primitive .Int] .any)
      (.typedFunction [.primitive .Int] (.primitive .Int)) = true := by
  refine (can_assign_function_spec [.primitive .Int] [.primitive .Int] .any
      (.primitive .Int) .any).1.mpr ⟨rfl, ?_, by simp [Ty.canAssign]⟩
  intro i h1 h2
  match i with
  | 0 => simp [Ty.canAssign]
  | i + 1 => simp at h1

/-! ## Claim C7: constant-pool overflow -/

/-- **C7**: `compile_constant` appends the literal to the chunk's constant
pool and returns the register byte `128 + index`; once the pool's index
would exceed 127 (i.e. the pool already holds more than 127 entries), it
fails with the `Compilation` error "Too many constants required". -/
theorem compile_constant_spec (c : Chunk) (v : ChunkConstant) :
    ((c.compileConstant v).1 = { c with constants := c.constants ++ [v] }) ∧
    (c.constants.length ≤ 127 →
      (c.compileConstant v).2 = .ok (128 + c.constants.length)) ∧
    (127 < c.constants.length →
      (c.compileConstant v).2 =
        .error ⟨.Compilation, "Too many constants required", 0⟩) := by
  refine ⟨rfl, fun h => ?_, fun h => ?_⟩
  · rw [Chunk.compileConstant]
    simp only [MAX_REGISTERS]
    rw [if_pos (by omega)]
  · rw [Chunk.compileConstant]
    simp only [MAX_REGISTERS]
    rw [if_neg (by omega)]

/-- Witness for C7: adding a constant to a fresh chunk yields register
byte 128. -/
theorem compile_constant_spec_witness :
    (Chunk.new.compileConstant .nil).2 = .ok 128 :=
  (compile_constant_spec Chunk.new .nil).2.1 (by decide)

/-! ## The garbage collector (`src/vm/gc.rs`)

Objects are keyed by a stable address: the source stores `Pin<Box<GCWrapper>>`
values, so object addresses survive both `Vec` growth and `retain`.  The
reference graph (`Traceable::touch(false)`) is abstracted to a list of child
addresses per object. -/

/-- A heap object as the collector sees it (`GCWrapper` in `src/vm/gc.rs`):
the collection-local mark bit, the root-handle count (`roots`), the addresses
its payload references, and its size in bytes. -/
structure GCObj where
  marked : Bool
  roots : Nat
  children : List Nat
  size : Nat
deriving DecidableEq, Repr

/-- `GCHeap` from `src/vm/gc.rs`. -/
structure GCHeap where
  objects : List (Nat × GCObj)
  nextAddr : Nat
  threshold : Nat
  used : Nat
deriving DecidableEq, Repr

/-- `INIT_THRESHOLD` from `src/vm/gc.rs`. -/
def INIT_THRESHOLD : Nat := 64

/-- `GCHeap::new()`. -/
def GCHeap.new : GCHeap := ⟨[], 0, INIT_THRESHOLD, 0⟩

/-- Replace the object stored at an address. -/
def setGCObj (objs : List (Nat × GCObj)) (a : Nat) (o : GCObj) :
    List (Nat × GCObj) :=
  objs.map fun p => if p.1 = a then (a, o) else p

/-- `GCWrapper::mark` from `src/vm/gc.rs`: if not yet marked, set the mark
bit and touch (mark) every child.  The recursion is fuelled; each productive
step marks a previously unmarked object, so `objects.length + 1` fuel always
suffices. -/
def markObj : Nat → List (Nat × GCObj) → Nat → List (Nat × GCObj)
  | 0, objs, _ => objs
  | fuel + 1, objs, a =>
    match objs.lookup a with
    | none => objs
    | some o =>
      if o.marked then objs
      else
        let objs' := setGCObj objs a { o with marked := true }
        o.children.foldl (markObj fuel) objs'

/-- The mark phase of `GCHeap::collect`: for each object whose root count is
positive, mark it (and transitively its children). -/
def markPhase (objs : List (Nat × GCObj)) : List (Nat × GCObj) :=
  (objs.map Prod.fst).foldl
    (fun acc a =>
      match acc.lookup a with
      | some o => if 0 < o.roots then markObj (acc.length + 1) acc a else acc
      | none => acc)
    objs

/-- `GCHeap::collect` from `src/vm/gc.rs`: mark every root-anchored object,
retain only marked objects, then reset all mark bits and recompute the
used-byte count. -/
def GCHeap.collect (h : GCHeap) : GCHeap :=
  let objs := markPhase h.objects
  let objs := objs.filter fun p => p.2.marked
  let objs := objs.map fun p => (p.1, { p.2 with marked := false })
  { h with objects := objs, used := (objs.map fun p => p.2.size).sum }

/-- `GCHeap::step` from `src/vm/gc.rs`: collect when past the threshold, then
double the threshold against current usage. -/
def GCHeap.step (h : GCHeap) : GCHeap :=
  if h.threshold ≤ h.used then
    let h' := h.collect
    { h' with threshold := h'.used * 2 }
  else h

/-- The primitive heap mutations: allocation (`GCHeap::add`, behind
`make_ref`/`make_value`; the fresh wrapper is unmarked with `roots = 0`, then
immediately rooted by the returned handle, hence `roots = 1`), root-count
bookkeeping (`signal_root` on handle clones, `signal_unroot` on handle drops
and on `touch(initial = true)` demotions such as `unroot_children`), payload
mutation of a container (list writes, upvalue closing), and the two
collection entry points.  Every heap interaction in the source is a
composition of these. -/
inductive HeapOp where
  | alloc (children : List Nat) (size : Nat)
  | incRoot (a : Nat)
  | decRoot (a : Nat)
  | setChildren (a : Nat) (children : List Nat)
  | collect
  | step
deriving DecidableEq, Repr

/-- Apply one heap operation. -/
def applyOp (h : GCHeap) : HeapOp → GCHeap
  | .alloc cs sz =>
      { h with objects := h.objects ++ [(h.nextAddr, ⟨false, 1, cs, sz⟩)], nextAddr := h.nextAddr + 1, used := h.used + sz }
  | .incRoot a =>
      { h with objects := h.objects.map fun p => if p.1 = a then (p.1, { p.2 with roots := p.2.roots + 1 }) else p }
  | .decRoot a =>
      { h with objects := h.objects.map fun p => if p.1 = a then (p.1, { p.2 with roots := p.2.roots - 1 }) else p }
  | .setChildren a cs =>
      { h with objects := h.objects.map fun p => if p.1 = a then (p.1, { p.2 with children := cs }) else p }
  | .collect => h.collect
  | .step => h.step

/-- Run a sequence of heap operations from the empty heap. -/
def applyOps (h : GCHeap) (ops : List HeapOp) : GCHeap :=
  ops.foldl applyOp h

/-- Outside a collection cycle every mark bit is clear. -/
def marksClear (h : GCHeap) : Prop :=
  ∀ p ∈ h.objects, p.2.marked = false

theorem lookup_mem_of_eq {α β : Type} [BEq α] [LawfulBEq α]
    {l : List (α × β)} {a : α} {b : β} (h : l.lookup a = some b) :
    (a, b) ∈ l := by
  induction l with
  | nil => simp [List.lookup] at h
  | cons p l ih =>
    obtain ⟨k, v⟩ := p
    rw [List.lookup] at h
    by_cases hab : a = k
    · subst hab
      simp only [beq_self_eq_true] at h
      cases h
      exact List.mem_cons_self _ _
    · have hf : (a == k) = false := beq_false_of_ne hab
      simp only [hf] at h
      exact List.mem_cons_of_mem _ (ih h)

/-- `collect` on a clear-marked heap clears the marks again (the mark reset
at the end of the sweep). -/
theorem collect_marksClear (h : GCHeap) : marksClear h.collect := by
  intro p hp
  simp only [GCHeap.collect, List.mem_map] at hp
  obtain ⟨q, _, rfl⟩ := hp
  rfl

/-- Every heap operation ends with all mark bits clear. -/
theorem applyOp_marksClear (h : GCHeap) (op : HeapOp) (hm : marksClear h) :
    marksClear (applyOp h op) := by
  cases op with
  | alloc cs sz =>
    intro p hp
    simp only [applyOp, List.mem_append, List.mem_singleton] at hp
    rcases hp with hp | rfl
    · exact hm p hp
    · rfl
  | incRoot a =>
    intro p hp
    simp only [applyOp, List.mem_map] at hp
    obtain ⟨q, hq, rfl⟩ := hp
    by_cases hqa : q.1 = a <;> simp only [hqa, if_pos, if_neg, if_true] <;>
      simp_all [hm q hq]
  | decRoot a =>
    intro p hp
    simp only [applyOp, List.mem_map] at hp
    obtain ⟨q, hq, rfl⟩ := hp
    by_cases hqa : q.1 = a <;> simp_all [hm q hq]
  | setChildren a cs =>
    intro p hp
    simp only [applyOp, List.mem_map] at hp
    obtain ⟨q, hq, rfl⟩ := hp
    by_cases hqa : q.1 = a <;> simp_all [hm q hq]
  | collect => exact collect_marksClear h
  | step =>
    rw [applyOp, GCHeap.step]
    split
    · intro p hp
      exact collect_marksClear h p (by simpa using hp)
    · exact hm

/-- After any operation sequence from the empty heap, all marks are clear. -/
theorem applyOps_marksClear (ops : List HeapOp) (h : GCHeap)
    (hm : marksClear h) : marksClear (applyOps h ops) := by
  induction ops generalizing h with
  | nil => exact hm
  | cons op ops ih => exact ih _ (applyOp_marksClear h op hm)

/-- With no rooted objects the mark phase does nothing. -/
theorem markPhase_of_no_roots (objs : List (Nat × GCObj))
    (hroots : ∀ p ∈ objs, p.2.roots = 0) : markPhase objs = objs := by
  rw [markPhase]
  generalize (objs.map Prod.fst) = addrs
  induction addrs with
  | nil => rfl
  | cons a addrs ih =>
    rw [List.foldl_cons]
    have hstep :
        (match objs.lookup a with
          | some o => if 0 < o.roots then markObj (objs.length + 1) objs a
                      else objs
          | none => objs) = objs := by
      cases hl : objs.lookup a with
      | none => rfl
      | some o =>
        have : o.roots = 0 := hroots (a, o) (lookup_mem_of_eq hl)
        simp [this]
    rw [hstep, ih]

/-- **C6**: after any sequence of allocations and heap mutations, if every
root handle has been dropped (every object's root count is zero), one call
to `GCHeap::collect` frees every object: nothing gets marked, so the sweep
retains nothing. -/
theorem collect_after_unroot_spec (ops : List HeapOp)
    (hroots : ∀ p ∈ (applyOps GCHeap.new ops).objects, p.2.roots = 0) :
    ((applyOps GCHeap.new ops).collect).objects = [] ∧
    ((applyOps GCHeap.new ops).collect).used = 0 := by
  have hm : marksClear (applyOps GCHeap.new ops) :=
    applyOps_marksClear ops GCHeap.new (by intro p hp; simp [GCHeap.new] at hp)
  have hempty :
      ((applyOps GCHeap.new ops).collect).objects = [] := by
    rw [GCHeap.collect]
    simp only [markPhase_of_no_roots _ hroots]
    have : ((applyOps GCHeap.new ops).objects.filter fun p => p.2.marked)
        = [] := by
      rw [List.filter_eq_nil_iff]
      intro p hp
      simp [hm p hp]
    simp [this]
  refine ⟨hempty, ?_⟩
  rw [GCHeap.collect] at hempty ⊢
  simp only at hempty
  simp [hempty]

/-- Witness for C6: allocate one object, drop its root handle, collect —
the heap is empty. -/
theorem collect_after_unroot_spec_witness :
    ((applyOps GCHeap.new [.alloc [] 8, .decRoot 0]).collect).objects = [] :=
  (collect_after_unroot_spec [.alloc [] 8, .decRoot 0] (by decide)).1

/-! ## The bytecode codec (`src/serial.rs`, `src/compiler/chunk.rs`)

Byte buffers are `List Nat` with each entry below 256.  The source threads a
`&mut Vec<u8>` through the writers; the writers here produce the appended
segment, and the buffer is the concatenation of the segments, which is the
same byte sequence.  Readers thread the remaining input, mirroring the
source's `slice::Iter<u8>`; their various error values (`Unexpected EOF`,
`Unrecognized constant type`, …) are collapsed into `none`.
`String::from_utf8` validation is not modelled: strings are carried as their
UTF-8 byte lists, and validation succeeds on any byte sequence a Rust
`String` produced. -/

/-- `u16::to_le_bytes`. -/
def u16le (n : Nat) : List Nat := [n % 256, n / 256 % 256]

/-- `i32::to_le_bytes` of the value whose `u32` bit pattern is `n`. -/
def u32le (n : Nat) : List Nat :=
  [n % 256, n / 256 % 256, n / 256 ^ 2 % 256, n / 256 ^ 3 % 256]

/-- `f64::to_le_bytes` of the value whose `u64` bit pattern is `n`. -/
def u64le (n : Nat) : List Nat :=
  [n % 256, n / 256 % 256, n / 256 ^ 2 % 256, n / 256 ^ 3 % 256,
   n / 256 ^ 4 % 256, n / 256 ^ 5 % 256, n / 256 ^ 6 % 256, n / 256 ^ 7 % 256]

/-- `read_u8` from `src/serial.rs`. -/
def readU8 : List Nat → Option (Nat × List Nat)
  | [] => none
  | b :: r => some (b, r)

/-- `read_u16` from `src/serial.rs` (2 bytes, little-endian; fails at EOF). -/
def readU16 : List Nat → Option (Nat × List Nat)
  | b0 :: b1 :: r => some (b0 + 256 * b1, r)
  | _ => none

/-- `read_i32` from `src/serial.rs`, kept as the `u32` bit pattern. -/
def readU32 : List Nat → Option (Nat × List Nat)
  | b0 :: b1 :: b2 :: b3 :: r =>
      some (b0 + 256 * b1 + 256 ^ 2 * b2 + 256 ^ 3 * b3, r)
  | _ => none

/-- `read_f64` from `src/serial.rs`, kept as the `u64` bit pattern. -/
def readU64 : List Nat → Option (Nat × List Nat)
  | b0 :: b1 :: b2 :: b3 :: b4 :: b5 :: b6 :: b7 :: r =>
      some (b0 + 256 * b1 + 256 ^ 2 * b2 + 256 ^ 3 * b3 + 256 ^ 4 * b4 +
        256 ^ 5 * b5 + 256 ^ 6 * b6 + 256 ^ 7 * b7, r)
  | _ => none

/-- `read_u8s` into a fixed-size array (used for the magic bytes): fails when
fewer than `n` bytes remain. -/
def readBytes (n : Nat) (l : List Nat) : Option (List Nat × List Nat) :=
  if n ≤ l.length then some (l.take n, l.drop n) else none

/-- `read_small_str` from `src/serial.rs`: a length byte, then that many
bytes.  (`read_u8s` collects into a `Vec`, which cannot fail on a short
read, so no length check happens here.) -/
def readSmallStr (l : List Nat) : Option (List Nat × List Nat) := do
  let (n, l) ← readU8 l
  some (l.take n, l.drop n)

/-- `read_str` from `src/serial.rs`: a `u16` length, then that many bytes. -/
def readStr (l : List Nat) : Option (List Nat × List Nat) := do
  let (n, l) ← readU16 l
  some (l.take n, l.drop n)

/-- `write_small_str` from `src/serial.rs`: strings of 256 bytes or more are
silently truncated to their first 255 bytes. -/
def smallStrBytes (s : List Nat) : List Nat :=
  let s := if 256 ≤ s.length then s.take 255 else s
  s.length :: s

/-- `write_str` from `src/serial.rs`: fails (an `IO` error) when the length
does not fit a `u16`. -/
def strBytes (s : List Nat) : Except HissyError (List Nat) :=
  if s.length < 2 ^ 16 then .ok (u16le s.length ++ s)
  else .error ⟨.Io, "Cannot serialise string: string too long", 0⟩

/-- `write_into_u16` from `src/serial.rs`. -/
def writeIntoU16 (n : Nat) (err : HissyError) : Except HissyError (List Nat) :=
  if n < 2 ^ 16 then .ok (u16le n) else .error err

/-- One constant-pool entry of `Chunk::to_bytes` (`src/compiler/chunk.rs`):
a `ConstantType` tag byte followed by the payload. -/
def constantToBytes : ChunkConstant → Except HissyError (List Nat)
  | .nil => .ok [0]
  | .bool b => .ok [1, if b then 1 else 0]
  | .int bits => .ok (2 :: u32le bits)
  | .real bits => .ok (3 :: u64le bits)
  | .str s =>
      match strBytes s with
      | .error e => .error e
      | .ok sb => .ok (4 :: sb)

/-- The constant-pool loop of `Chunk::to_bytes`. -/
def constantsToBytes : List ChunkConstant → Except HissyError (List Nat)
  | [] => .ok []
  | c :: cs =>
      match constantToBytes c with
      | .error e => .error e
      | .ok b =>
        match constantsToBytes cs with
        | .error e => .error e
        | .ok bs => .ok (b ++ bs)

/-- One constant-pool entry of `Chunk::from_bytes`. -/
def readConstant (l : List Nat) : Option (ChunkConstant × List Nat) := do
  let (t, l) ← readU8 l
  match t with
  | 0 => some (.nil, l)
  | 1 => do
      let (b, l) ← readU8 l
      some (.bool (b != 0), l)
  | 2 => do
      let (n, l) ← readU32 l
      some (.int n, l)
  | 3 => do
      let (n, l) ← readU64 l
      some (.real n, l)
  | 4 => do
      let (s, l) ← readStr l
      some (.str s, l)
  | _ => none

/-- The constant-pool loop of `Chunk::from_bytes`. -/
def readConstants : Nat → List Nat → Option (List ChunkConstant × List Nat)
  | 0, l => some ([], l)
  | n + 1, l => do
      let (c, l) ← readConstant l
      let (cs, l) ← readConstants n l
      some (c :: cs, l)

/-- The upvalue loop of `Chunk::to_bytes`: each upvalue spec byte, followed
(in debug mode) by its name.  The source indexes `upvalue_names[i]` and
panics if it is missing; `WFChunk` requires the name list to cover the
upvalues, making the `headD`/`tail` defaults unreachable. -/
def upvaluesToBytes (debug : Bool) : List Nat → List (List Nat) → List Nat
  | [], _ => []
  | u :: us, names =>
      u :: ((if debug then smallStrBytes (names.headD []) else []) ++
        upvaluesToBytes debug us names.tail)

/-- The upvalue loop of `Chunk::from_bytes`: reads each spec byte and (in
debug mode) pushes the following name onto `upvalue_names`. -/
def readUpvalues : Nat → Bool → List Nat →
    Option ((List Nat × List (List Nat)) × List Nat)
  | 0, _, l => some (([], []), l)
  | n + 1, debug, l => do
      let (u, l) ← readU8 l
      let (nm, l) ← if debug then readSmallStr l else some ([], l)
      let ((us, nms), l) ← readUpvalues n debug l
      some ((u :: us, if debug then nm :: nms else []), l)

/-- The line-number loop of `Chunk::to_bytes`. -/
def lineNumbersToBytes : List (Nat × Nat) → List Nat
  | [] => []
  | (pos, line) :: rest => u16le pos ++ u16le line ++ lineNumbersToBytes rest

/-- The line-number loop of `Chunk::from_bytes`. -/
def readLineNumbers : Nat → List Nat → Option (List (Nat × Nat) × List Nat)
  | 0, l => some ([], l)
  | n + 1, l => do
      let (pos, l) ← readU16 l
      let (line, l) ← readU16 l
      let (rest, l) ← readLineNumbers n l
      some ((pos, line) :: rest, l)

/-- The debug-only line-number segment of `Chunk::to_bytes`: a `u16` count
followed by the `(position, line)` pairs; nothing when debug info is off. -/
def lineSegBytes (debug : Bool) (lns : List (Nat × Nat)) :
    Except HissyError (List Nat) :=
  if debug then
    match writeIntoU16 lns.length ⟨.Io, "Too many line numbers to serialize", 0⟩ with
    | .error e => .error e
    | .ok nl => .ok (nl ++ lineNumbersToBytes lns)
  else .ok []

/-- `Chunk::to_bytes` from `src/compiler/chunk.rs`: optional name, register
count, constant pool, upvalue specs (with names in debug mode), line table
(debug mode), then the code prefixed by its length. -/
def chunkToBytes (debug : Bool) (c : Chunk) : Except HissyError (List Nat) :=
  match writeIntoU16 c.constants.length
      ⟨.Io, "Too many constants to serialize", 0⟩ with
  | .error e => .error e
  | .ok nConstSeg =>
  match constantsToBytes c.constants with
  | .error e => .error e
  | .ok constSeg =>
  match writeIntoU16 c.upvalues.length
      ⟨.Io, "Too many upvalues to serialize", 0⟩ with
  | .error e => .error e
  | .ok nUpvSeg =>
  match lineSegBytes debug c.debugInfo.lineNumbers with
  | .error e => .error e
  | .ok lineSeg =>
  match writeIntoU16 c.code.length ⟨.Io, "Code too long to serialize", 0⟩ with
  | .error e => .error e
  | .ok nCodeSeg =>
    .ok ((if debug then smallStrBytes c.debugInfo.name else []) ++
      u16le c.nbRegisters ++ nConstSeg ++ constSeg ++ nUpvSeg ++
      upvaluesToBytes debug c.upvalues c.debugInfo.upvalueNames ++
      lineSeg ++ nCodeSeg ++ c.code)

/-- `Chunk::from_bytes` from `src/compiler/chunk.rs`.  The trailing code is
read with `take`, which (like the source's `it.take(code_size)`) cannot fail
on a short input. -/
def chunkFromBytes (debug : Bool) (l : List Nat) : Option (Chunk × List Nat) := do
  let (name, l) ← if debug then readSmallStr l else some ([], l)
  let (nbRegisters, l) ← readU16 l
  let (nConst, l) ← readU16 l
  let (constants, l) ← readConstants nConst l
  let (nUpv, l) ← readU16 l
  let ((upvalues, upvalueNames), l) ← readUpvalues nUpv debug l
  let (lineNumbers, l) ← if debug then do
      let (nl, l) ← readU16 l
      readLineNumbers nl l
    else some ([], l)
  let (nCode, l) ← readU16 l
  some (⟨nbRegisters, constants, upvalues, l.take nCode,
    ⟨name, upvalueNames, lineNumbers⟩⟩, l.drop nCode)

/-- `MAGIC_BYTES`: `b"hsyc"`. -/
def MAGIC_BYTES : List Nat := [104, 115, 121, 99]

/-- `FORMAT_VER`. -/
def FORMAT_VER : Nat := 4

/-- The chunk loop of `Program::to_file`. -/
def chunksToBytes (debug : Bool) : List Chunk → Except HissyError (List Nat)
  | [] => .ok []
  | c :: cs =>
      match chunkToBytes debug c with
      | .error e => .error e
      | .ok b =>
        match chunksToBytes debug cs with
        | .error e => .error e
        | .ok bs => .ok (b ++ bs)

/-- `Program::to_file` from `src/compiler/chunk.rs` (the bytes written to the
file): magic, version, options byte (bit 0 = debug info), then every chunk. -/
def programToBytes (p : Program) : Except HissyError (List Nat) :=
  match chunksToBytes p.debugInfo p.chunks with
  | .error e => .error e
  | .ok chunksSeg =>
      .ok (MAGIC_BYTES ++ u16le FORMAT_VER ++
        [if p.debugInfo then 1 else 0] ++ chunksSeg)

/-- The `while it.len() > 0` chunk loop of `Program::from_file`, fuelled by
the input length (each chunk consumes at least one byte). -/
def parseChunks (debug : Bool) : Nat → List Nat → Option (List Chunk)
  | _, [] => some []
  | 0, _ :: _ => none
  | fuel + 1, b :: l => do
      let (c, rest) ← chunkFromBytes debug (b :: l)
      let cs ← parseChunks debug fuel rest
      some (c :: cs)

/-- `Program::from_file` from `src/compiler/chunk.rs` (applied to the bytes
of the file): check magic and version, decode the options byte, then read
chunks until the input is exhausted. -/
def programFromBytes (l : List Nat) : Option Program := do
  let (magic, l) ← readBytes 4 l
  if magic ≠ MAGIC_BYTES then none else do
  let (ver, l) ← readU16 l
  if ver ≠ FORMAT_VER then none else do
  let (options, l) ← readU8 l
  if 1 < options then none else do
  let debug := options == 1
  let chunks ← parseChunks debug l.length l
  some ⟨debug, chunks⟩

/-- Range constraints the Rust types already guarantee for a constant
(`i32` and `f64` payloads, `u16` string length). -/
def WFConstant : ChunkConstant → Prop
  | .int bits => bits < 2 ^ 32
  | .real bits => bits < 2 ^ 64
  | .str s => s.length < 2 ^ 16
  | _ => True

/-- Wellformedness of a chunk for serialization: the `u16`-typed fields are
in range (guaranteed by the Rust types), the vector lengths fit a `u16`
(otherwise `to_bytes` errors out), the upvalue-name table covers the
upvalues in debug mode (the compiler fills both from the same vector), and —
as the amendment of claim C1 requires — every chunk and upvalue name is at
most 255 bytes, since `write_small_str` silently truncates longer names. -/
def WFChunk (debug : Bool) (c : Chunk) : Prop :=
  c.nbRegisters < 2 ^ 16 ∧
  c.constants.length < 2 ^ 16 ∧ (∀ k ∈ c.constants, WFConstant k) ∧
  c.upvalues.length < 2 ^ 16 ∧
  c.code.length < 2 ^ 16 ∧
  (debug = true →
    c.debugInfo.name.length < 256 ∧
    c.debugInfo.upvalueNames.length = c.upvalues.length ∧
    (∀ nm ∈ c.debugInfo.upvalueNames, nm.length < 256) ∧
    (∀ pl ∈ c.debugInfo.lineNumbers, pl.1 < 2 ^ 16 ∧ pl.2 < 2 ^ 16) ∧
    c.debugInfo.lineNumbers.length < 2 ^ 16)

/-- What loading preserves of a chunk: everything, except that with debug
info off the debug fields come back empty (they are not written). -/
def Chunk.observed (debug : Bool) (c : Chunk) : Chunk :=
  if debug then c else { c with debugInfo := ChunkInfo.empty }

/-- What loading preserves of a program. -/
def Program.observed (p : Program) : Program :=
  { p with chunks := p.chunks.map (Chunk.observed p.debugInfo) }

/-! ### Round-trip lemmas for the codec -/

theorem readU16_u16le (n : Nat) (hn : n < 2 ^ 16) (r : List Nat) :
    readU16 (u16le n ++ r) = some (n, r) := by
  simp only [u16le, List.cons_append, List.nil_append, readU16,
    Option.some.injEq, Prod.mk.injEq]
  exact ⟨by omega, trivial⟩

theorem readU32_u32le (n : Nat) (hn : n < 2 ^ 32) (r : List Nat) :
    readU32 (u32le n ++ r) = some (n, r) := by
  simp only [u32le, List.cons_append, List.nil_append, readU32,
    Option.some.injEq, Prod.mk.injEq]
  refine ⟨?_, trivial⟩
  have h2 : (256 : Nat) ^ 2 = 65536 := by norm_num
  have h3 : (256 : Nat) ^ 3 = 16777216 := by norm_num
  rw [h2, h3]
  have hn' : n < 4294967296 := by norm_num at hn ⊢; omega
  omega

theorem readU64_u64le (n : Nat) (hn : n < 2 ^ 64) (r : List Nat) :
    readU64 (u64le n ++ r) = some (n, r) := by
  simp only [u64le, List.cons_append, List.nil_append, readU64,
    Option.some.injEq, Prod.mk.injEq]
  refine ⟨?_, trivial⟩
  have h2 : (256 : Nat) ^ 2 = 65536 := by norm_num
  have h3 : (256 : Nat) ^ 3 = 16777216 := by norm_num
  have h4 : (256 : Nat) ^ 4 = 4294967296 := by norm_num
  have h5 : (256 : Nat) ^ 5 = 1099511627776 := by norm_num
  have h6 : (256 : Nat) ^ 6 = 281474976710656 := by norm_num
  have h7 : (256 : Nat) ^ 7 = 72057594037927936 := by norm_num
  rw [h2, h3, h4, h5, h6, h7]
  have hn' : n < 18446744073709551616 := by norm_num at hn ⊢; omega
  omega

theorem readSmallStr_smallStrBytes (s : List Nat) (hs : s.length < 256)
    (r : List Nat) :
    readSmallStr (smallStrBytes s ++ r) = some (s, r) := by
  rw [smallStrBytes]
  simp only [if_neg (by omega : ¬256 ≤ s.length)]
  simp [readSmallStr, readU8, List.append_assoc, List.take_left, List.drop_left]

theorem readStr_strBytes (s : List Nat) (hs : s.length < 2 ^ 16) (r : List Nat) :
    readStr ((u16le s.length ++ s) ++ r) = some (s, r) := by
  rw [readStr, List.append_assoc]
  rw [show (readU16 (u16le s.length ++ (s ++ r))) = some (s.length, s ++ r) from
    readU16_u16le _ hs _]
  simp [List.take_left, List.drop_left]

theorem readConstant_constantToBytes (k : ChunkConstant) (hk : WFConstant k)
    (b : List Nat) (hb : constantToBytes k = .ok b) (r : List Nat) :
    readConstant (b ++ r) = some (k, r) := by
  cases k with
  | nil =>
    cases hb
    simp [readConstant, readU8]
  | bool bb =>
    cases hb
    cases bb <;> simp [readConstant, readU8]
  | int bits =>
    cases hb
    simp only [List.cons_append, readConstant, readU8, Option.bind_eq_bind,
      Option.some_bind]
    rw [readU32_u32le bits hk r]
    rfl
  | real bits =>
    cases hb
    simp only [List.cons_append, readConstant, readU8, Option.bind_eq_bind,
      Option.some_bind]
    rw [readU64_u64le bits hk r]
    rfl
  | str s =>
    have hs : s.length < 2 ^ 16 := hk
    rw [constantToBytes, strBytes, if_pos hs] at hb
    have hb' : Except.ok (ε := HissyError) (4 :: (u16le s.length ++ s)) =
        Except.ok b := hb
    cases hb'
    simp only [List.cons_append, readConstant, readU8, Option.bind_eq_bind,
      Option.some_bind]
    rw [readStr_strBytes s hs r]
    rfl

theorem readConstants_constantsToBytes (cs : List ChunkConstant)
    (hcs : ∀ k ∈ cs, WFConstant k) (b : List Nat)
    (hb : constantsToBytes cs = .ok b) (r : List Nat) :
    readConstants cs.length (b ++ r) = some (cs, r) := by
  induction cs generalizing b r with
  | nil =>
    cases hb
    simp [readConstants]
  | cons k cs ih =>
    rw [constantsToBytes] at hb
    cases hk : constantToBytes k with
    | error e => rw [hk] at hb; cases hb
    | ok kb =>
      rw [hk] at hb
      cases hcsb : constantsToBytes cs with
      | error e => rw [hcsb] at hb; cases hb
      | ok csb =>
        rw [hcsb] at hb
        have hb' : Except.ok (ε := HissyError) (kb ++ csb) = Except.ok b := hb
        cases hb'
        rw [List.length_cons, readConstants, List.append_assoc]
        rw [readConstant_constantToBytes k (hcs k (by simp)) kb hk]
        simp only [Option.bind_eq_bind, Option.some_bind]
        rw [ih (fun k hk => hcs k (by simp [hk])) csb hcsb r]
        rfl

theorem readUpvalues_upvaluesToBytes (debug : Bool) (us : List Nat)
    (names : List (List Nat))
    (hn : debug = true → names.length = us.length ∧ ∀ nm ∈ names, nm.length < 256)
    (r : List Nat) :
    readUpvalues us.length debug (upvaluesToBytes debug us names ++ r) =
      some ((us, if debug then names else []), r) := by
  induction us generalizing names r with
  | nil =>
    cases debug with
    | false => simp [upvaluesToBytes, readUpvalues]
    | true =>
      have : names = [] := List.length_eq_zero.mp (hn rfl).1
      subst this
      simp [upvaluesToBytes, readUpvalues]
  | cons u us ih =>
    cases debug with
    | false =>
      rw [List.length_cons, upvaluesToBytes, readUpvalues]
      simp only [List.cons_append, readU8, Bool.false_eq_true, if_false,
        List.nil_append, Option.bind_eq_bind, Option.some_bind]
      rw [ih names.tail (by simp) r]
      rfl
    | true =>
      obtain ⟨hlen, hnm⟩ := hn rfl
      cases names with
      | nil => simp at hlen
      | cons nm names =>
        rw [List.length_cons, upvaluesToBytes, readUpvalues]
        simp only [List.cons_append, readU8, if_true, List.headD_cons,
          List.tail_cons, List.append_assoc, Option.bind_eq_bind,
          Option.some_bind]
        rw [readSmallStr_smallStrBytes nm (hnm nm (by simp)) _]
        simp only [Option.some_bind]
        rw [ih names (fun _ => ⟨by simpa using hlen, fun x hx => hnm x (by simp [hx])⟩) r]
        rfl

theorem readLineNumbers_lineNumbersToBytes (lns : List (Nat × Nat))
    (hl : ∀ pl ∈ lns, pl.1 < 2 ^ 16 ∧ pl.2 < 2 ^ 16) (r : List Nat) :
    readLineNumbers lns.length (lineNumbersToBytes lns ++ r) = some (lns, r) := by
  induction lns generalizing r with
  | nil => simp [lineNumbersToBytes, readLineNumbers]
  | cons pl lns ih =>
    obtain ⟨pos, line⟩ := pl
    obtain ⟨hp, hline⟩ := hl (pos, line) (by simp)
    rw [List.length_cons, lineNumbersToBytes, readLineNumbers,
      List.append_assoc, List.append_assoc]
    rw [readU16_u16le pos hp]
    simp only [Option.bind_eq_bind, Option.some_bind]
    rw [readU16_u16le line hline]
    simp only [Option.some_bind]
    rw [ih (fun x hx => hl x (by simp [hx])) r]
    rfl

theorem readBytes_append (l r : List Nat) (n : Nat) (hl : l.length = n) :
    readBytes n (l ++ r) = some (l, r) := by
  subst hl
  rw [readBytes, if_pos (by simp)]
  rw [List.take_left, List.drop_left]

theorem writeIntoU16_lt (n : Nat) (err : HissyError) (h : n < 2 ^ 16) :
    writeIntoU16 n err = .ok (u16le n) := by
  rw [writeIntoU16, if_pos h]

theorem lineSegBytes_false (lns : List (Nat × Nat)) :
    lineSegBytes false lns = .ok [] := rfl

theorem lineSegBytes_true (lns : List (Nat × Nat)) (h : lns.length < 2 ^ 16) :
    lineSegBytes true lns = .ok (u16le lns.length ++ lineNumbersToBytes lns) := by
  rw [lineSegBytes, if_pos rfl, writeIntoU16_lt _ _ h]

theorem constantToBytes_ok (k : ChunkConstant) (hk : WFConstant k) :
    ∃ b, constantToBytes k = .ok b := by
  cases k with
  | str s =>
    have hs : s.length < 2 ^ 16 := hk
    exact ⟨4 :: (u16le s.length ++ s), by rw [constantToBytes, strBytes, if_pos hs]⟩
  | nil => exact ⟨_, rfl⟩
  | bool b => exact ⟨_, rfl⟩
  | int bits => exact ⟨_, rfl⟩
  | real bits => exact ⟨_, rfl⟩

theorem constantsToBytes_ok (cs : List ChunkConstant)
    (h : ∀ k ∈ cs, WFConstant k) : ∃ b, constantsToBytes cs = .ok b := by
  induction cs with
  | nil => exact ⟨[], rfl⟩
  | cons k cs ih =>
    obtain ⟨kb, hkb⟩ := constantToBytes_ok k (h k (by simp))
    obtain ⟨csb, hcsb⟩ := ih (fun x hx => h x (by simp [hx]))
    exact ⟨kb ++ csb, by rw [constantsToBytes, hkb, hcsb]⟩

/-- The explicit byte layout of a successfully serialized chunk. -/
theorem chunkToBytes_eq (debug : Bool) (c : Chunk)
    (h2 : c.constants.length < 2 ^ 16) (h4 : c.upvalues.length < 2 ^ 16)
    (h5 : c.code.length < 2 ^ 16)
    (cb : List Nat) (hcb : constantsToBytes c.constants = .ok cb)
    (ls : List Nat) (hls : lineSegBytes debug c.debugInfo.lineNumbers = .ok ls) :
    chunkToBytes debug c = .ok
      ((if debug then smallStrBytes c.debugInfo.name else []) ++
        u16le c.nbRegisters ++ u16le c.constants.length ++ cb ++
        u16le c.upvalues.length ++
        upvaluesToBytes debug c.upvalues c.debugInfo.upvalueNames ++
        ls ++ u16le c.code.length ++ c.code) := by
  rw [chunkToBytes, writeIntoU16_lt _ _ h2, hcb, writeIntoU16_lt _ _ h4, hls,
    writeIntoU16_lt _ _ h5]

/-- Round trip of one chunk: writing a wellformed chunk and reading the
result back (with any trailing input) recovers the chunk, up to the debug
fields being empty when debug info is off. -/
theorem chunkFromBytes_chunkToBytes (debug : Bool) (c : Chunk)
    (h : WFChunk debug c) (b : List Nat) (hb : chunkToBytes debug c = .ok b)
    (r : List Nat) :
    chunkFromBytes debug (b ++ r) = some (Chunk.observed debug c, r) := by
  obtain ⟨h1, h2, h3, h4, h5, h6⟩ := h
  obtain ⟨cb, hcb⟩ := constantsToBytes_ok c.constants h3
  cases debug with
  | false =>
    rw [chunkToBytes_eq false c h2 h4 h5 cb hcb [] (lineSegBytes_false _)] at hb
    cases hb
    rw [chunkFromBytes]
    simp only [Bool.false_eq_true, if_false, if_neg, Option.bind_eq_bind,
      Option.some_bind, List.nil_append, List.append_nil, List.append_assoc]
    rw [readU16_u16le _ h1]
    simp only [Option.some_bind]
    rw [readU16_u16le _ h2]
    simp only [Option.some_bind]
    rw [readConstants_constantsToBytes c.constants h3 cb hcb]
    simp only [Option.some_bind]
    rw [readU16_u16le _ h4]
    simp only [Option.some_bind]
    rw [readUpvalues_upvaluesToBytes false c.upvalues c.debugInfo.upvalueNames
      (by simp) _]
    simp only [Bool.false_eq_true, if_false, Option.some_bind]
    rw [readU16_u16le _ h5]
    simp only [Option.some_bind]
    rw [List.take_left, List.drop_left]
    rfl
  | true =>
    obtain ⟨hn, hul, hun, hpl, hll⟩ := h6 rfl
    rw [chunkToBytes_eq true c h2 h4 h5 cb hcb _ (lineSegBytes_true _ hll)] at hb
    cases hb
    rw [chunkFromBytes]
    simp only [if_true, Option.bind_eq_bind, List.append_assoc]
    rw [readSmallStr_smallStrBytes _ hn]
    simp only [Option.some_bind]
    rw [readU16_u16le _ h1]
    simp only [Option.some_bind]
    rw [readU16_u16le _ h2]
    simp only [Option.some_bind]
    rw [readConstants_constantsToBytes c.constants h3 cb hcb]
    simp only [Option.some_bind]
    rw [readU16_u16le _ h4]
    simp only [Option.some_bind]
    rw [readUpvalues_upvaluesToBytes true c.upvalues c.debugInfo.upvalueNames
      (fun _ => ⟨hul, hun⟩) _]
    simp only [if_true, Option.some_bind]
    rw [readU16_u16le _ hll]
    simp only [Option.some_bind]
    rw [readLineNumbers_lineNumbersToBytes c.debugInfo.lineNumbers hpl _]
    simp only [Option.some_bind]
    rw [readU16_u16le _ h5]
    simp only [Option.some_bind]
    rw [List.take_left, List.drop_left]
    rfl

/-- Round trip of the chunk sequence: the `while it.len() > 0` loop of
`Program::from_file` recovers every written chunk when fuelled by at least
the byte-sequence length. -/
theorem parseChunks_chunksToBytes (debug : Bool) (cs : List Chunk)
    (h : ∀ c ∈ cs, WFChunk debug c) (b : List Nat)
    (hb : chunksToBytes debug cs = .ok b) (fuel : Nat)
    (hfuel : b.length ≤ fuel) :
    parseChunks debug fuel b = some (cs.map (Chunk.observed debug)) := by
  induction cs generalizing b fuel with
  | nil =>
    cases hb
    cases fuel <;> rfl
  | cons c cs ih =>
    rw [chunksToBytes] at hb
    cases hcb : chunkToBytes debug c with
    | error e => rw [hcb] at hb; cases hb
    | ok cb =>
      rw [hcb] at hb
      cases hcsb : chunksToBytes debug cs with
      | error e => rw [hcsb] at hb; cases hb
      | ok csb =>
        rw [hcsb] at hb
        have hb' : Except.ok (ε := HissyError) (cb ++ csb) = Except.ok b := hb
        cases hb'
        obtain ⟨w1, w2, w3, w4, w5, w6⟩ := h c (by simp)
        obtain ⟨cb2, hcb2⟩ := constantsToBytes_ok c.constants w3
        have hlsv : ∃ ls, lineSegBytes debug c.debugInfo.lineNumbers = .ok ls := by
          cases debug with
          | false => exact ⟨[], lineSegBytes_false _⟩
          | true => exact ⟨_, lineSegBytes_true _ (w6 rfl).2.2.2.2⟩
        obtain ⟨ls, hls⟩ := hlsv
        have heq := chunkToBytes_eq debug c w2 w4 w5 cb2 hcb2 ls hls
        rw [hcb] at heq
        have hlen : 0 < cb.length := by
          have hinj : cb = (if debug = true then smallStrBytes c.debugInfo.name
              else []) ++ u16le c.nbRegisters ++ u16le c.constants.length ++
              cb2 ++ u16le c.upvalues.length ++
              upvaluesToBytes debug c.upvalues c.debugInfo.upvalueNames ++
              ls ++ u16le c.code.length ++ c.code := by
            injection heq
          rw [hinj]
          simp [u16le, List.length_append]
        obtain ⟨x, cb', rfl⟩ : ∃ x cb', cb = x :: cb' := by
          cases cb with
          | nil => simp at hlen
          | cons x cb' => exact ⟨x, cb', rfl⟩
        cases fuel with
        | zero => simp at hfuel
        | succ fuel =>
          rw [List.cons_append, parseChunks]
          rw [show x :: (cb' ++ csb) = (x :: cb') ++ csb from rfl]
          rw [chunkFromBytes_chunkToBytes debug c (h c (by simp)) _ hcb csb]
          simp only [Option.bind_eq_bind, Option.some_bind]
          rw [ih (fun z hz => h z (by simp [hz])) csb hcsb fuel
            (by simp at hfuel; omega)]
          rfl

/-! ## Claim C1: bytecode round trip -/

/-- **C1** (amended): serializing a compiler-produced program to a bytecode
file and loading it back yields a structurally identical `Program` — same
debug flag and, for every chunk, the same register count, constant pool,
upvalue specs and code bytes, and (when debug info is on) the same chunk
name, upvalue names and line-number table — for every program whose chunk
and upvalue names are at most 255 bytes.  (`write_small_str` silently
truncates longer names, which `WFChunk` excludes; with debug info off the
debug fields load back empty, which the claim does not mention.) -/
theorem bytecode_roundtrip_spec (p : Program)
    (h : ∀ c ∈ p.chunks, WFChunk p.debugInfo c)
    (bs : List Nat) (hw : programToBytes p = .ok bs) :
    programFromBytes bs = some p.observed ∧
    (p.debugInfo = true → programFromBytes bs = some p) := by
  rw [programToBytes] at hw
  cases hcs : chunksToBytes p.debugInfo p.chunks with
  | error e => rw [hcs] at hw; cases hw
  | ok csb =>
    rw [hcs] at hw
    have hw' : Except.ok (ε := HissyError) (MAGIC_BYTES ++ u16le FORMAT_VER ++
        [if p.debugInfo then 1 else 0] ++ csb) = Except.ok bs := hw
    cases hw'
    have hparse := parseChunks_chunksToBytes p.debugInfo p.chunks h csb hcs
      csb.length le_rfl
    have hmain : programFromBytes (MAGIC_BYTES ++ u16le FORMAT_VER ++
        [if p.debugInfo then 1 else 0] ++ csb) = some p.observed := by
      rw [programFromBytes]
      simp only [List.append_assoc]
      rw [readBytes_append MAGIC_BYTES _ 4 rfl]
      simp only [Option.bind_eq_bind, Option.some_bind, ne_eq,
        not_true_eq_false, if_false]
      rw [readU16_u16le FORMAT_VER (by norm_num [FORMAT_VER]) _]
      simp only [Option.some_bind, not_true_eq_false, if_false]
      cases hd : p.debugInfo with
      | false =>
        rw [show (if (false = true) then (1 : Nat) else 0) = 0 by simp]
        simp only [List.cons_append, List.nil_append, readU8,
          Option.some_bind]
        rw [if_neg (by omega : ¬(1 : Nat) < 0)]
        rw [show ((0 : Nat) == 1) = false from rfl]
        rw [hd] at hparse
        rw [hparse]
        simp only [Option.some_bind]
        rw [Program.observed, hd]
      | true =>
        rw [show (if (true = true) then (1 : Nat) else 0) = 1 by simp]
        simp only [List.cons_append, List.nil_append, readU8,
          Option.some_bind]
        rw [if_neg (by omega : ¬(1 : Nat) < 1)]
        rw [show ((1 : Nat) == 1) = true from rfl]
        rw [hd] at hparse
        rw [hparse]
        simp only [Option.some_bind]
        rw [Program.observed, hd]
    refine ⟨hmain, fun hd => ?_⟩
    rw [hmain, Program.observed, hd]
    rw [show Chunk.observed true = id from funext fun c => by
      rw [Chunk.observed, if_pos rfl]; rfl, List.map_id]
    rw [← hd]

/-- Witness for C1: a one-chunk debug program with a constant, an upvalue
and a line table survives the round trip exactly. -/
theorem bytecode_roundtrip_spec_witness :
    programFromBytes ((programToBytes ⟨true, [⟨3, [ChunkConstant.int 7], [2],
        [0, 0], ⟨[109], [[117]], [(0, 1)]⟩⟩]⟩).toOption.getD []) =
      some ⟨true, [⟨3, [ChunkConstant.int 7], [2],
        [0, 0], ⟨[109], [[117]], [(0, 1)]⟩⟩]⟩ := by
  have hwf : ∀ c ∈ (⟨true, [⟨3, [ChunkConstant.int 7], [2],
      [0, 0], ⟨[109], [[117]], [(0, 1)]⟩⟩]⟩ : Program).chunks,
      WFChunk true c := by
    intro c hc
    simp only [List.mem_singleton] at hc
    subst hc
    refine ⟨by norm_num, by norm_num, ?_, by norm_num, by norm_num, fun _ => ?_⟩
    · intro k hk
      simp only [List.mem_singleton] at hk
      subst hk
      norm_num [WFConstant]
    · refine ⟨by norm_num, by norm_num, ?_, ?_, by norm_num⟩
      · intro nm hnm
        simp only [List.mem_singleton] at hnm
        subst hnm
        norm_num
      · intro pl hpl
        simp only [List.mem_singleton] at hpl
        subst hpl
        norm_num
  exact (bytecode_roundtrip_spec _ hwf _ rfl).2 rfl

/-- The concrete counterexample program: one chunk whose (debug) name is 256
`a` bytes long.  Reachable from the compiler: `compile_chunk` stores the
`let`-bound identifier as the chunk name, and identifiers have no length
limit. -/
def longNameProgram : Program :=
  ⟨true, [⟨0, [], [], [], ⟨List.replicate 256 97, [], []⟩⟩]⟩

set_option maxRecDepth 40000 in
/-- **C1, counterexample**: the round trip is *not* the identity on every
compiler-producible program: a chunk name of 256 bytes is silently truncated
to 255 bytes by `write_small_str`, so the loaded program differs from the
written one in the chunk name. -/
theorem bytecode_roundtrip_counterexample :
    programFromBytes ((programToBytes longNameProgram).toOption.getD []) =
      some ⟨true, [⟨0, [], [], [], ⟨List.replicate 255 97, [], []⟩⟩]⟩ ∧
    programFromBytes ((programToBytes longNameProgram).toOption.getD []) ≠
      some longNameProgram := by
  constructor
  · decide
  · decide

/-! ## The virtual machine (`src/vm/mod.rs`, `src/vm/object.rs`)

The object heap is a list indexed by address; allocation appends, matching
the source's `GCHeap` (pinned boxes, so addresses are stable and the heap
only grows during execution).  `heap.step()`, called between instructions,
may run a collection; a collection only *removes* unreachable objects and
never mutates a surviving one, so it is not part of the step relation here —
the collector itself is verified separately above.  Root-count bookkeeping
(`touch`, `signal_root`/`signal_unroot`) belongs to that GC model and is
likewise not repeated here.

Rust panics (out-of-bounds indexing, `unwrap`/`expect`, `RefCell` borrow
conflicts, `unimplemented!`) are modelled by the distinguished `panicked`
error, separate from the source's recoverable `HissyError`s. -/

/-- `UpvalueData` from `src/vm/object.rs`: an upvalue is either open
(pointing at an absolute slot of the register file) or closed (owning a
value). -/
inductive UpvalueData where
  | onStack (idx : Nat)
  | onHeap (v : Value)
deriving DecidableEq, Repr

/-- The heap object variants the VM touches (`src/vm/object.rs`): strings,
closures (chunk id plus upvalue addresses), upvalues, lists, native
functions (a tag interpreted by the `natImpl` parameter of the step
function), and method namespaces (`Namespace`). -/
inductive Obj where
  | str (s : List Nat)
  | closure (chunkId : Nat) (upvalues : List Nat)
  | upval (d : UpvalueData)
  | list (elems : List Value)
  | native (tag : Nat)
  | nsObj (entries : List Value)
deriving DecidableEq, Repr

/-- The VM's object heap: address = index, allocation appends. -/
abbrev Heap := List Obj

/-- A Rust panic or a recoverable `HissyError`. -/
inductive VMErr where
  | err (e : HissyError)
  | panicked (msg : String)
deriving DecidableEq, Repr

/-- The `i32` denoted by a `u32` bit pattern. -/
def toI32 (bits : Nat) : Int :=
  if bits < 2 ^ 31 then (bits : Int) else (bits : Int) - 2 ^ 32

/-- The rational denoted by an `f64` bit pattern (exact for finite doubles;
infinities and NaNs, which no claim touches, map to 0). -/
def decodeF64 (bits : Nat) : ℚ :=
  let sign : ℚ := if bits / 2 ^ 63 = 1 then -1 else 1
  let e : Nat := bits / 2 ^ 52 % 2 ^ 11
  let m : Nat := bits % 2 ^ 52
  if e = 2047 then 0
  else if e = 0 then sign * (m : ℚ) * (2 : ℚ) ^ (-(1074 : Int))
  else sign * ((2 ^ 52 + m : Nat) : ℚ) * (2 : ℚ) ^ ((e : Int) - 1075)

/-- `ChunkConstant::to_value` from `src/compiler/chunk.rs`: primitive
constants become immediate values; a string constant allocates a fresh heap
string on every read (`heap.make_value`). -/
def ChunkConstant.toValue (k : ChunkConstant) (heap : Heap) : Value × Heap :=
  match k with
  | .nil => (.nil, heap)
  | .bool b => (.bool b, heap)
  | .int bits => (.int (toI32 bits), heap)
  | .real bits => (.real (decodeF64 bits), heap)
  | .str s => (.obj heap.length, heap ++ [.str s])

/-- `ReturnParams` from `src/vm/mod.rs`. -/
structure ReturnParams where
  add : Nat
  reg : Nat
deriving DecidableEq, Repr

/-- `ExecRecord` from `src/vm/mod.rs`: the frame's closure address, its
`register → upvalue` map (a `HashMap` in the source, an association list
with unique keys here), the return address/register of the caller, and the
frame's absolute register window. -/
structure ExecRecord where
  closure : Nat
  upvalues : List (Nat × Nat)
  returnParams : Option ReturnParams
  regWin : Nat × Nat
deriving DecidableEq, Repr

/-- `Registers` from `src/vm/mod.rs`: the flat register file and the active
window base. -/
structure Registers where
  registers : List Value
  windowStart : Nat
deriving DecidableEq, Repr

/-- `Registers::shift_window`. -/
def Registers.shiftWindow (r : Registers) (n : Nat) : Registers :=
  { r with windowStart := r.windowStart + n }

/-- `Registers::reset_window`: replace every slot from the current window
base upward by `fin − window_start` fresh NILs (the source's `splice`), then
move the base back to `start`. -/
def Registers.resetWindow (r : Registers) (start fin : Nat) : Registers :=
  { registers := r.registers.take r.windowStart ++
      List.replicate (fin - r.windowStart) Value.nil,
    windowStart := start }

/-- `Registers::allocate`. -/
def Registers.allocate (r : Registers) (n : Nat) : Registers :=
  { r with registers := r.registers ++ List.replicate n Value.nil }

/-- `Registers::reg_or_cst` from `src/vm/mod.rs`: a byte below 128 is a
window-relative register, at or above 128 a constant-pool index whose value
is materialized afresh (possibly allocating, for strings). -/
def Registers.regOrCst (r : Registers) (chunk : Chunk) (heap : Heap)
    (reg : Nat) : Except VMErr (Value × Heap) :=
  if reg < MAX_REGISTERS then
    match r.registers[r.windowStart + reg]? with
    | some v => .ok (v, heap)
    | none => .error (.err ⟨.Execution, "Invalid register", 0⟩)
  else
    match chunk.constants[reg - MAX_REGISTERS]? with
    | some k => .ok (k.toValue heap)
    | none => .error (.err ⟨.Execution, "Invalid constant", 0⟩)

/-- `Registers::mut_reg` followed by a store.  (The source's `get_mut`
panics out of bounds; `List.set` is then a no-op — no claim exercises an
out-of-bounds register write.) -/
def Registers.mutReg (r : Registers) (reg : Nat) (v : Value) : Registers :=
  { r with registers := r.registers.set (r.windowStart + reg) v }

/-- Modelled from the spec: the `CallMethod` receiver insertion.  The spec's
`MakeMethod` row says a bound method "prepends `this` to its args" and
`CallMethod` is its shortcut, so the receiver is *inserted* at `args_start`
and the argument block `[args_start, args_start+n)` laid down by the
compiler shifts up by one slot — it is not overwritten. -/
def Registers.insertReg (r : Registers) (reg : Nat) (v : Value) : Registers :=
  { r with registers := r.registers.insertIdx (r.windowStart + reg) v }

/-- `Registers::reg_range`. -/
def Registers.regRange (r : Registers) (start cnt : Nat) : List Value :=
  (r.registers.drop (r.windowStart + start)).take cnt

/-- `Registers::get_upvalue`: open upvalues read the register file at their
absolute slot, closed ones return the owned value. -/
def Registers.getUpvalue (r : Registers) (d : UpvalueData) : Value :=
  match d with
  | .onStack idx => r.registers.getD idx .nil
  | .onHeap v => v

/-- `Registers::set_upvalue`: open upvalues write the register file, closed
ones replace the owned value (`Upvalue::set_inside`). -/
def Registers.setUpvalue (r : Registers) (heap : Heap) (addr : Nat)
    (val : Value) : Registers × Heap :=
  match heap[addr]? with
  | some (.upval (.onStack idx)) =>
      ({ r with registers := r.registers.set idx val }, heap)
  | some (.upval (.onHeap _)) =>
      (r, heap.set addr (.upval (.onHeap val)))
  | _ => (r, heap)

/-- `VMState` from `src/vm/mod.rs` (the `Registers`, the current chunk and
instruction position, the call stack — head is the innermost frame — the
external (prelude) bindings, and the object heap). -/
structure VMState where
  regs : Registers
  chunkId : Nat
  pc : Nat
  calls : List ExecRecord
  external : List Value
  heap : Heap
deriving DecidableEq, Repr

/-- The chunk currently executed (the source holds `&Chunk`; indexing main
`program.chunks` panics only on a malformed chunk id). -/
def curChunk (program : Program) (s : VMState) : Chunk :=
  program.chunks.getD s.chunkId Chunk.new

/-- `VMState::call` from `src/vm/mod.rs`: remember the return position
(`self.pos()`, here the caller's `pc` after its operands), switch to the
callee chunk at instruction 0, shift the window up by `args_start`, resize
the register file to the callee's register count, and push the frame. -/
def VMState.call (s : VMState) (program : Program) (funcAddr : Nat)
    (argsStart : Nat) (retReg : Option Nat) : VMState :=
  match s.heap[funcAddr]? with
  | some (.closure cid _) =>
    let retAdd := s.pc
    let chunk := program.chunks.getD cid Chunk.new
    let regs := s.regs.shiftWindow argsStart
    let newLen := regs.windowStart + chunk.nbRegisters
    let newRegisters := regs.registers.take newLen ++
      List.replicate (newLen - regs.registers.length) Value.nil
    let regs := { regs with registers := newRegisters }
    let newFrame : ExecRecord :=
      { closure := funcAddr, upvalues := [],
        returnParams := retReg.map (fun rr => ⟨retAdd, rr⟩),
        regWin := (regs.windowStart, newLen) }
    { s with chunkId := cid, pc := 0, regs := regs, calls := newFrame :: s.calls }
  | _ => s

/-- The close-upvalues loop of `VMState::ret`: for every `(register,
upvalue)` entry of the returning frame, move the register's value into the
upvalue (`Upvalue::set_inside` stores it as `OnHeap`). -/
def closeUpvalues (regs : Registers) (chunk : Chunk) :
    List (Nat × Nat) → Heap → Except VMErr Heap
  | [], heap => .ok heap
  | (reg, addr) :: rest, heap =>
      match regs.regOrCst chunk heap reg with
      | .error e => .error e
      | .ok (val, heap) =>
          closeUpvalues regs chunk rest (heap.set addr (.upval (.onHeap val)))

/-- `VMState::ret` from `src/vm/mod.rs`: pop the frame, close its upvalues,
restore the caller's window, switch back to the caller's chunk at the saved
return address, and store the returned value into the saved register.  The
source `unwrap`s/`expect`s the popped frame, the caller frame and the return
parameters — those panics are surfaced as `panicked`. -/
def VMState.ret (s : VMState) (program : Program) (retVal : Value) :
    Except VMErr VMState :=
  match s.calls with
  | [] => .error (.panicked "called `Option::unwrap()` on a `None` value")
  | curCall :: restCalls =>
    match restCalls with
    | [] => .error (.panicked "called `Option::unwrap()` on a `None` value")
    | prevCall :: _ =>
      match closeUpvalues s.regs (curChunk program s) curCall.upvalues s.heap with
      | .error e => .error e
      | .ok heap =>
        let regs := s.regs.resetWindow prevCall.regWin.1 prevCall.regWin.2
        match heap[prevCall.closure]? with
        | some (.closure prevCid _) =>
          match curCall.returnParams with
          | none => .error (.panicked "No return address/register set")
          | some ret =>
            if ret.add ≤ (program.chunks.getD prevCid Chunk.new).code.length then
              .ok { s with
                regs := regs.mutReg ret.reg retVal,
                chunkId := prevCid, pc := ret.add,
                calls := restCalls, heap := heap }
            else .error (.panicked "Jumped forward too far")
        | _ => .error (.panicked "Invalid closure")
  
/-- Decode a byte as the `i8` it encodes (relative jump displacements). -/
def i8val (b : Nat) : Int := if b < 128 then (b : Int) else (b : Int) - 256

/-- The result of one iteration of the `run_instr` closure in `run_program`:
continue with a new state, finish (end of chunk 0), abort with a
`HissyError`, or hit a Rust panic. -/
inductive StepResult where
  | next (s : VMState)
  | done (s : VMState)
  | fail (e : HissyError)
  | panic (msg : String)
deriving DecidableEq, Repr

/-- Lift a `VMErr` into a `StepResult`. -/
def VMErr.toStep : VMErr → StepResult
  | .err e => .fail e
  | .panicked m => .panic m

/-- The semantics of a native function, indexed by its tag: it receives the
heap and the argument values and returns a result value and an updated heap
(`NativeFunction::call` in `src/vm/object.rs`).  The prelude natives are one
possible interpretation. -/
abbrev NativeImpl := Nat → Heap → List Value → Except VMErr (Value × Heap)

/-- `List::set` from `src/vm/object.rs`.  In range, the element is replaced.
Out of range, the source *intends* to return the Execution error "Can't set
value at index {idx} in list of length {len}", but the `ok_or_else` closure
calls `self.len()` — which borrows the `RefCell` — while `data` is still
mutably borrowed, so the `RefCell` panics instead. -/
def listSetRs (elems : List Value) (idx : Nat) (val : Value) :
    Except VMErr (List Value) :=
  if idx < elems.length then .ok (elems.set idx val)
  else .error (.panicked "already mutably borrowed")

/-- `read_rel_add` + `iter_from` from `src/vm/mod.rs`: a jump target is the
displacement byte's position plus the signed displacement; a negative target
is the Execution error "Jumped back too far", a target past the end of the
code panics ("Jumped forward too far"). -/
def relTarget (code : List Nat) (pos : Nat) (b : Nat) : Except VMErr Nat :=
  let fin : Int := (pos : Int) + i8val b
  if fin < 0 then .error (.err ⟨.Execution, "Jumped back too far", 0⟩)
  else if (code.length : Int) < fin then .error (.panicked "Jumped forward too far")
  else .ok fin.toNat

/-- The body of the `bin_op!` macro in `run_program`: read two operand
bytes and a destination byte, evaluate both operands, apply the value
operation, store the result. -/
def binOpStep (program : Program) (s : VMState) (it : List Nat)
    (opfn : Value → Value → Option Value) (msg : String) : StepResult :=
  match it with
  | a :: b :: c :: _ =>
    (match s.regs.regOrCst (curChunk program s) s.heap a with
     | .error e => e.toStep
     | .ok (va, heap) =>
       match s.regs.regOrCst (curChunk program s) heap b with
       | .error e => e.toStep
       | .ok (vb, heap) =>
         match opfn va vb with
         | none => .fail ⟨.Execution, msg, 0⟩
         | some v => .next { s with regs := s.regs.mutReg c v, heap := heap, pc := s.pc + 4 })
  | _ => .fail ⟨.Io, "Unexpected EOF", 0⟩

/-- The `Eq`/`Neq` arms (which cannot fail on mismatched kinds). -/
def eqStep (program : Program) (s : VMState) (it : List Nat)
    (negate : Bool) : StepResult :=
  match it with
  | a :: b :: c :: _ =>
    (match s.regs.regOrCst (curChunk program s) s.heap a with
     | .error e => e.toStep
     | .ok (va, heap) =>
       match s.regs.regOrCst (curChunk program s) heap b with
       | .error e => e.toStep
       | .ok (vb, heap) =>
         let res := if negate then !(va.eqOp vb) else va.eqOp vb
         .next { s with regs := s.regs.mutReg c (.bool res), heap := heap, pc := s.pc + 4 })
  | _ => .fail ⟨.Io, "Unexpected EOF", 0⟩

/-- The `Neg`/`Not` arms. -/
def unOpStep (program : Program) (s : VMState) (it : List Nat)
    (opfn : Value → Option Value) (msg : String) : StepResult :=
  match it with
  | rin :: rout :: _ =>
    (match s.regs.regOrCst (curChunk program s) s.heap rin with
     | .error e => e.toStep
     | .ok (v, heap) =>
       match opfn v with
       | none => .fail ⟨.Execution, msg, 0⟩
       | some v2 => .next { s with regs := s.regs.mutReg rout v2, heap := heap, pc := s.pc + 3 })
  | _ => .fail ⟨.Io, "Unexpected EOF", 0⟩

/-- The dispatch of the `Call` arm of `run_program`, applied to an already
evaluated callee value: a closure pushes a frame (window shifted to
`args_start`, return to `(pcAfter, rout)`); a native function is called
synchronously on the argument range and its result stored in `rout`;
anything else is the Execution error "Cannot call value". -/
def doCall (natImpl : NativeImpl) (program : Program) (s : VMState)
    (funcVal : Value) (argsStart argsCnt rout : Nat) (pcAfter : Nat) :
    StepResult :=
  match funcVal with
  | .obj addr =>
    (match s.heap[addr]? with
     | some (.closure _ _) =>
         .next (VMState.call { s with pc := pcAfter } program addr argsStart
           (some rout))
     | some (.native tag) =>
         (match natImpl tag s.heap (s.regs.regRange argsStart argsCnt) with
          | .error e => e.toStep
          | .ok (res, heap) =>
              .next { s with regs := s.regs.mutReg rout res, heap := heap, pc := pcAfter })
     | _ => .fail ⟨.Execution, "Cannot call value", 0⟩)
  | _ => .fail ⟨.Execution, "Cannot call value", 0⟩

/-- The upvalue-construction loop of the `Func` arm: each upvalue spec byte
below 128 captures the local register at that offset of the frame's window
(reusing the frame's existing upvalue for that register, else allocating a
fresh open upvalue and recording it in the frame's map); a byte at or above
128 reuses the enclosing closure's upvalue at index `byte − 128` (panicking
like the source if that index is out of bounds). -/
def buildUpvalues (win0 : Nat) (closureUpvs : List Nat) :
    List Nat → List (Nat × Nat) → Heap →
    Except VMErr (List Nat × List (Nat × Nat) × Heap)
  | [], upvMap, heap => .ok ([], upvMap, heap)
  | reg :: rest, upvMap, heap =>
    if reg < MAX_REGISTERS then
      match upvMap.lookup reg with
      | some addr =>
          (match buildUpvalues win0 closureUpvs rest upvMap heap with
           | .error e => .error e
           | .ok (addrs, upvMap, heap) => .ok (addr :: addrs, upvMap, heap))
      | none =>
          (match buildUpvalues win0 closureUpvs rest ((reg, heap.length) :: upvMap)
              (heap ++ [Obj.upval (.onStack (win0 + reg))]) with
           | .error e => .error e
           | .ok (addrs, upvMap2, heap2) =>
               .ok (heap.length :: addrs, upvMap2, heap2))
    else
      match closureUpvs[reg - MAX_REGISTERS]? with
      | none => .error (.panicked "index out of bounds")
      | some addr =>
          (match buildUpvalues win0 closureUpvs rest upvMap heap with
           | .error e => .error e
           | .ok (addrs, upvMap, heap) => .ok (addr :: addrs, upvMap, heap))

/-- One iteration of the interpreter loop of `run_program`
(`src/vm/mod.rs`), reading the instruction at `s.pc` of the current chunk.
Opcodes 0–30 are the `InstrType` discriminants of the source enum.  The
`ListSet` arm (27) is *modelled from the spec* — the dispatch in
`src/vm/mod.rs` lacks it (only the enum variant, the compiler's emission and
`List::set` exist in the sources) — following the spec row
"`ListSet list, idx, s` | bounds-check, `list[idx] ← R_or_const[s]`" with
the operand conversions mirroring the `ListGet` arm.  The `CallMethod` arm
(31, an opcode value not fixed by the sources) is likewise *modelled from
the spec* row "`CallMethod ns, prop, this, args_start, n, d` | look up
`external[ns].namespace[prop]`, insert `this` at `args_start`, call as
above; argument slot at `args_start` is the receiver", with the operand
layout the compiler emits (u16 namespace index, property byte, receiver
byte, argument range start, argument count, destination); the receiver is
inserted — the argument block shifts up one slot — since `MakeMethod`
"prepends `this` to its args" and `CallMethod` is its shortcut. -/
def runInstr (natImpl : NativeImpl) (program : Program) (s : VMState) :
    StepResult :=
  let chunk := curChunk program s
  match chunk.code.drop s.pc with
  | [] =>
      if s.chunkId = 0 then .done s
      else
        match s.ret program .nil with
        | .ok s2 => .next s2
        | .error e => e.toStep
  | b :: it =>
    match b with
    | 0 => .next { s with pc := s.pc + 1 }
    | 1 =>
      (match it with
       | rin :: rout :: _ =>
         (match s.regs.regOrCst chunk s.heap rin with
          | .error e => e.toStep
          | .ok (v, heap) =>
              .next { s with regs := s.regs.mutReg rout v, heap := heap, pc := s.pc + 3 })
       | _ => .fail ⟨.Io, "Unexpected EOF", 0⟩)
    | 2 =>
      (match it with
       | u :: rout :: _ =>
         (match s.calls with
          | [] => .panic "called `Option::unwrap()` on a `None` value"
          | cur :: _ =>
            match s.heap[cur.closure]? with
            | some (.closure _ closUpvs) =>
              (match closUpvs[u]? with
               | none => .panic "index out of bounds"
               | some addr =>
                 match s.heap[addr]? with
                 | some (.upval d) =>
                     .next { s with
                       regs := s.regs.mutReg rout (s.regs.getUpvalue d),
                       pc := s.pc + 3 }
                 | _ => .panic "Cannot make GCRef to non-T Object")
            | _ => .panic "Cannot make GCRef to non-T Object")
       | _ => .fail ⟨.Io, "Unexpected EOF", 0⟩)
    | 3 =>
      (match it with
       | u :: rin :: _ =>
         (match s.calls with
          | [] => .panic "called `Option::unwrap()` on a `None` value"
          | cur :: _ =>
            match s.heap[cur.closure]? with
            | some (.closure _ closUpvs) =>
              (match closUpvs[u]? with
               | none => .panic "index out of bounds"
               | some addr =>
                 match s.regs.regOrCst chunk s.heap rin with
                 | .error e => e.toStep
                 | .ok (v, heap) =>
                     let rh := s.regs.setUpvalue heap addr v
                     .next { s with regs := rh.1, heap := rh.2, pc := s.pc + 3 })
            | _ => .panic "Cannot make GCRef to non-T Object")
       | _ => .fail ⟨.Io, "Unexpected EOF", 0⟩)
    | 4 =>
      (match it with
       | e0 :: e1 :: rout :: _ =>
         (match s.external[e0 + 256 * e1]? with
          | none => .fail ⟨.Execution, "Invalid external value", 0⟩
          | some v => .next { s with regs := s.regs.mutReg rout v, pc := s.pc + 4 })
       | _ => .fail ⟨.Io, "Unexpected EOF", 0⟩)
    | 5 => unOpStep program s it Value.neg "Cannot negate value!"
    | 6 => binOpStep program s it Value.add "Cannot add these values"
    | 7 => binOpStep program s it Value.sub "Cannot sub these values"
    | 8 => binOpStep program s it Value.mul "Cannot mul these values"
    | 9 => binOpStep program s it Value.div "Cannot div these values"
    | 10 => binOpStep program s it Value.modulo "Cannot modulo these values"
    | 11 => binOpStep program s it Value.pow "Cannot pow these values"
    | 12 => unOpStep program s it Value.notOp "Cannot apply logical NOT to value"
    | 13 => binOpStep program s it Value.orOp "Cannot or these values"
    | 14 => binOpStep program s it Value.andOp "Cannot and these values"
    | 15 => eqStep program s it false
    | 16 => eqStep program s it true
    | 17 => binOpStep program s it Value.lth "Cannot lth these values"
    | 18 => binOpStep program s it Value.leq "Cannot leq these values"
    | 19 => binOpStep program s it Value.gth "Cannot gth these values"
    | 20 => binOpStep program s it Value.geq "Cannot geq these values"
    | 21 =>
      (match it with
       | cid :: rout :: _ =>
         (match program.chunks[cid]? with
          | none => .fail ⟨.Execution, "Invalid chunk id", 0⟩
          | some chunk2 =>
            match s.calls with
            | [] => .panic "called `Option::unwrap()` on a `None` value"
            | cur :: rest =>
              match s.heap[cur.closure]? with
              | some (.closure _ closUpvs) =>
                (match buildUpvalues cur.regWin.1 closUpvs chunk2.upvalues
                    cur.upvalues s.heap with
                 | .error e => e.toStep
                 | .ok (addrs, newMap, heap) =>
                     let caddr := heap.length
                     .next { s with
                       regs := s.regs.mutReg rout (.obj caddr),
                       heap := heap ++ [Obj.closure cid addrs],
                       calls := { cur with upvalues := newMap } :: rest,
                       pc := s.pc + 3 })
              | _ => .panic "Cannot make GCRef to non-T Object")
       | _ => .fail ⟨.Io, "Unexpected EOF", 0⟩)
    | 22 =>
      (match it with
       | f :: as0 :: n :: rout :: _ =>
         (match s.regs.regOrCst chunk s.heap f with
          | .error e => e.toStep
          | .ok (fv, heap) =>
              doCall natImpl program { s with heap := heap } fv as0 n rout
                (s.pc + 5))
       | _ => .fail ⟨.Io, "Unexpected EOF", 0⟩)
    | 23 =>
      (match it with
       | rin :: _ =>
         (match s.regs.regOrCst chunk s.heap rin with
          | .error e => e.toStep
          | .ok (v, heap) =>
            match VMState.ret { s with heap := heap, pc := s.pc + 2 } program v with
            | .ok s2 => .next s2
            | .error e => e.toStep)
       | _ => .fail ⟨.Io, "Unexpected EOF", 0⟩)
    | 24 =>
      (match it with
       | rout :: _ =>
           .next { s with regs := s.regs.mutReg rout (.obj s.heap.length), heap := s.heap ++ [Obj.list []], pc := s.pc + 2 }
       | _ => .fail ⟨.Io, "Unexpected EOF", 0⟩)
    | 25 =>
      (match it with
       | l :: vs :: n :: _ =>
         (match s.regs.regOrCst chunk s.heap l with
          | .error e => e.toStep
          | .ok (lv, heap) =>
            match lv with
            | .obj lAddr =>
              (match heap[lAddr]? with
               | some (.list elems) =>
                   .next { s with
                     heap := heap.set lAddr
                       (.list (elems ++ s.regs.regRange vs n)),
                     pc := s.pc + 4 }
               | _ => .fail ⟨.Execution, "Cannot use ListExtend on non-List value", 0⟩)
            | _ => .fail ⟨.Execution, "Cannot use ListExtend on non-List value", 0⟩)
       | _ => .fail ⟨.Io, "Unexpected EOF", 0⟩)
    | 26 =>
      (match it with
       | l :: i :: rout :: _ =>
         (match s.regs.regOrCst chunk s.heap l with
          | .error e => e.toStep
          | .ok (lv, heap) =>
            match lv with
            | .obj lAddr =>
              (match heap[lAddr]? with
               | some (.list elems) =>
                 (match s.regs.regOrCst chunk heap i with
                  | .error e => e.toStep
                  | .ok (iv, heap) =>
                    match iv with
                    | .int ii =>
                      if ii < 0 then
                        .fail ⟨.Execution, "Cannot index list with negative integer", 0⟩
                      else
                        match elems[ii.toNat]? with
                        | none => .fail ⟨.Execution, "Can't get value at out-of-range index", 0⟩
                        | some v =>
                            .next { s with regs := s.regs.mutReg rout v, heap := heap, pc := s.pc + 4 }
                    | _ => .fail ⟨.Execution, "Cannot index list with non-integer", 0⟩)
               | _ => .fail ⟨.Execution, "Cannot index non-list value", 0⟩)
            | _ => .fail ⟨.Execution, "Cannot index non-list value", 0⟩)
       | _ => .fail ⟨.Io, "Unexpected EOF", 0⟩)
    | 27 =>
      (match it with
       | l :: i :: srcb :: _ =>
         (match s.regs.regOrCst chunk s.heap l with
          | .error e => e.toStep
          | .ok (lv, heap) =>
            match lv with
            | .obj lAddr =>
              (match heap[lAddr]? with
               | some (.list elems) =>
                 (match s.regs.regOrCst chunk heap i with
                  | .error e => e.toStep
                  | .ok (iv, heap) =>
                    match iv with
                    | .int ii =>
                      if ii < 0 then
                        .fail ⟨.Execution, "Cannot index list with negative integer", 0⟩
                      else
                        (match s.regs.regOrCst chunk heap srcb with
                         | .error e => e.toStep
                         | .ok (v, heap) =>
                           match listSetRs elems ii.toNat v with
                           | .error e => e.toStep
                           | .ok elems2 =>
                               .next { s with
                                 heap := heap.set lAddr (.list elems2),
                                 pc := s.pc + 4 })
                    | _ => .fail ⟨.Execution, "Cannot index list with non-integer", 0⟩)
               | _ => .fail ⟨.Execution, "Cannot use ListSet on non-List value", 0⟩)
            | _ => .fail ⟨.Execution, "Cannot use ListSet on non-List value", 0⟩)
       | _ => .fail ⟨.Io, "Unexpected EOF", 0⟩)
    | 28 =>
      (match it with
       | brel :: _ =>
         (match relTarget chunk.code (s.pc + 1) brel with
          | .error e => e.toStep
          | .ok t => .next { s with pc := t })
       | _ => .fail ⟨.Io, "Unexpected EOF", 0⟩)
    | 29 =>
      (match it with
       | brel :: cond :: _ =>
         (match relTarget chunk.code (s.pc + 1) brel with
          | .error e => e.toStep
          | .ok t =>
            match s.regs.regOrCst chunk s.heap cond with
            | .error e => e.toStep
            | .ok (cv, heap) =>
              match cv with
              | .bool bb =>
                  .next { s with heap := heap, pc := if bb then t else s.pc + 3 }
              | _ => .fail ⟨.Execution, "Non-bool used in condition", 0⟩)
       | _ => .fail ⟨.Io, "Unexpected EOF", 0⟩)
    | 30 =>
      (match it with
       | brel :: cond :: _ =>
         (match relTarget chunk.code (s.pc + 1) brel with
          | .error e => e.toStep
          | .ok t =>
            match s.regs.regOrCst chunk s.heap cond with
            | .error e => e.toStep
            | .ok (cv, heap) =>
              match cv with
              | .bool bb =>
                  .next { s with heap := heap, pc := if bb then s.pc + 3 else t }
              | _ => .fail ⟨.Execution, "Non-bool used in condition", 0⟩)
       | _ => .fail ⟨.Io, "Unexpected EOF", 0⟩)
    | 31 =>
      (match it with
       | ns0 :: ns1 :: prop :: thisb :: as0 :: n :: rout :: _ =>
         (match s.external[ns0 + 256 * ns1]? with
          | none => .fail ⟨.Execution, "Invalid external value", 0⟩
          | some nsv =>
            match nsv with
            | .obj nsAddr =>
              (match s.heap[nsAddr]? with
               | some (.nsObj entries) =>
                 (match entries[prop]? with
                  | none => .fail ⟨.Execution, "Can't get index in namespace", 0⟩
                  | some f =>
                    match s.regs.regOrCst chunk s.heap thisb with
                    | .error e => e.toStep
                    | .ok (thisVal, heap) =>
                      let regs := s.regs.insertReg as0 thisVal
                      match f with
                      | .obj faddr =>
                        (match heap[faddr]? with
                         | some (.closure _ _) =>
                             .next (VMState.call { s with regs := regs, heap := heap, pc := s.pc + 8 } program faddr
                               as0 (some rout))
                         | some (.native tag) =>
                           (match natImpl tag heap (regs.regRange as0 (n + 1)) with
                            | .error e => e.toStep
                            | .ok (res, heap2) =>
                                .next { s with regs := regs.mutReg rout res, heap := heap2, pc := s.pc + 8 })
                         | _ => .fail ⟨.Execution, "Cannot call value", 0⟩)
                      | _ => .fail ⟨.Execution, "Cannot call value", 0⟩)
               | _ => .fail ⟨.Execution, "Cannot call value", 0⟩)
            | _ => .fail ⟨.Execution, "Cannot call value", 0⟩)
       | _ => .fail ⟨.Io, "Unexpected EOF", 0⟩)
    | _ => .panic "Unimplemented instruction"

/-! ### Upvalue lifecycle: close-on-return and the one-way transition -/

/-- The upvalue at this address is closed (owns its value, `OnHeap`). -/
def isClosed (h : Heap) (addr : Nat) : Prop :=
  ∃ v, h[addr]? = some (.upval (.onHeap v))

/-- Every upvalue closed in `h` is still closed in `h'`. -/
def closedPreserved (h h' : Heap) : Prop :=
  ∀ addr, isClosed h addr → isClosed h' addr

/-- The native functions never reopen a closed upvalue (the prelude natives
touch only lists, strings and iterators; `UpvalueData` is not even visible
to them in a way that could produce an `OnStack` value). -/
def closedPreservingNat (natImpl : NativeImpl) : Prop :=
  ∀ tag h args v h', natImpl tag h args = .ok (v, h') → closedPreserved h h'

/-- How the `GetUp` arm reads an upvalue: look up the upvalue object, then
read through it (open: from the register file at the absolute slot; closed:
the owned value). -/
def readUpvalueAt (regs : Registers) (h : Heap) (addr : Nat) : Option Value :=
  match h[addr]? with
  | some (.upval d) => some (regs.getUpvalue d)
  | _ => none

theorem mem_length_of_getElem? {α : Type} {l : List α} {i : Nat} {a : α}
    (h : l[i]? = some a) : i < l.length := by
  by_contra hc
  push_neg at hc
  rw [List.getElem?_eq_none hc] at h
  cases h

theorem closedPreserved_refl (h : Heap) : closedPreserved h h :=
  fun _ hc => hc

theorem closedPreserved_trans {h1 h2 h3 : Heap}
    (a : closedPreserved h1 h2) (b : closedPreserved h2 h3) :
    closedPreserved h1 h3 :=
  fun addr hc => b addr (a addr hc)

theorem closedPreserved_append (h ext : Heap) :
    closedPreserved h (h ++ ext) := by
  intro addr ⟨v, hv⟩
  exact ⟨v, by rw [List.getElem?_append_left (mem_length_of_getElem? hv)]; exact hv⟩

theorem closedPreserved_set_closed (h : Heap) (a : Nat) (w : Value) :
    closedPreserved h (h.set a (.upval (.onHeap w))) := by
  intro addr ⟨v, hv⟩
  by_cases hq : a = addr
  · subst hq
    exact ⟨w, List.getElem?_set_self (mem_length_of_getElem? hv)⟩
  · exact ⟨v, by rw [List.getElem?_set_ne hq]; exact hv⟩

theorem closedPreserved_set_unclosed (h : Heap) (a : Nat) (o : Obj)
    (ha : ¬isClosed h a) : closedPreserved h (h.set a o) := by
  intro addr ⟨v, hv⟩
  by_cases hq : a = addr
  · exact absurd ⟨v, hq ▸ hv⟩ ha
  · exact ⟨v, by rw [List.getElem?_set_ne hq]; exact hv⟩

theorem toValue_closedPreserved (k : ChunkConstant) (h : Heap) :
    closedPreserved h (k.toValue h).2 := by
  cases k <;> first
    | exact closedPreserved_refl _
    | exact closedPreserved_append _ _

theorem regOrCst_closedPreserved (regs : Registers) (chunk : Chunk)
    (h : Heap) (reg : Nat) (v : Value) (h' : Heap)
    (hok : regs.regOrCst chunk h reg = .ok (v, h')) :
    closedPreserved h h' := by
  rw [Registers.regOrCst] at hok
  split at hok
  · split at hok
    · cases hok
      exact closedPreserved_refl _
    · cases hok
  · split at hok
    case _ k heq =>
      injection hok with hpair
      have h2 : h' = (k.toValue h).2 := (congrArg Prod.snd hpair).symm
      rw [h2]
      exact toValue_closedPreserved k h
    case _ => cases hok

theorem closeUpvalues_closedPreserved (regs : Registers) (chunk : Chunk) :
    ∀ (entries : List (Nat × Nat)) (h h' : Heap),
    closeUpvalues regs chunk entries h = .ok h' → closedPreserved h h' := by
  intro entries
  induction entries with
  | nil =>
    intro h h' hok
    cases hok
    exact closedPreserved_refl _
  | cons p rest ih =>
    intro h h' hok
    obtain ⟨reg, addr⟩ := p
    rw [closeUpvalues] at hok
    split at hok
    · cases hok
    case _ val h1 heq =>
      refine closedPreserved_trans (regOrCst_closedPreserved _ _ _ _ _ _ heq)
        (closedPreserved_trans (closedPreserved_set_closed h1 addr val) ?_)
      exact ih _ _ hok

theorem toValue_length_le (k : ChunkConstant) (h : Heap) :
    h.length ≤ (k.toValue h).2.length := by
  cases k <;> simp [ChunkConstant.toValue]

theorem regOrCst_length_le (regs : Registers) (chunk : Chunk)
    (h : Heap) (reg : Nat) (v : Value) (h' : Heap)
    (hok : regs.regOrCst chunk h reg = .ok (v, h')) :
    h.length ≤ h'.length := by
  rw [Registers.regOrCst] at hok
  split at hok
  · split at hok
    · cases hok; exact le_rfl
    · cases hok
  · split at hok
    case _ k heq =>
      injection hok with hpair
      have h2 : h' = (k.toValue h).2 := (congrArg Prod.snd hpair).symm
      rw [h2]
      exact toValue_length_le k h
    case _ => cases hok

/-- The close loop of `ret` leaves every entry of the frame's upvalue map
closed (each address must be a live heap object, as those created by the
`Func` arm always are). -/
theorem closeUpvalues_closes (regs : Registers) (chunk : Chunk) :
    ∀ (entries : List (Nat × Nat)) (h h' : Heap),
    closeUpvalues regs chunk entries h = .ok h' →
    (∀ p ∈ entries, p.2 < h.length) →
    ∀ p ∈ entries, isClosed h' p.2 := by
  intro entries
  induction entries with
  | nil =>
    intro h h' _ _ p hp
    cases hp
  | cons q rest ih =>
    intro h h' hok hlive p hp
    obtain ⟨reg, addr⟩ := q
    rw [closeUpvalues] at hok
    split at hok
    · cases hok
    case _ val h1 heq =>
      have hlen : h.length ≤ h1.length := regOrCst_length_le _ _ _ _ _ _ heq
      rcases List.mem_cons.mp hp with rfl | hmem
      · refine closeUpvalues_closedPreserved regs chunk rest _ _ hok addr ?_
        have hlt : addr < h1.length :=
          lt_of_lt_of_le (hlive (reg, addr) (by simp)) hlen
        exact ⟨val, List.getElem?_set_self hlt⟩
      · refine ih _ _ hok ?_ p hmem
        intro q hq
        calc q.2 < h.length := hlive q (by simp [hq])
        _ ≤ h1.length := hlen
        _ = (h1.set addr (Obj.upval (.onHeap val))).length := by simp

theorem setUpvalue_closedPreserved (regs : Registers) (h : Heap) (addr : Nat)
    (val : Value) : closedPreserved h (regs.setUpvalue h addr val).2 := by
  rw [Registers.setUpvalue]
  split
  · exact closedPreserved_refl _
  · exact closedPreserved_set_closed _ _ _
  · exact closedPreserved_refl _

theorem buildUpvalues_closedPreserved (win0 : Nat) (closureUpvs : List Nat) :
    ∀ (specs : List Nat) (upvMap : List (Nat × Nat)) (h : Heap)
    (addrs : List Nat) (upvMap' : List (Nat × Nat)) (h' : Heap),
    buildUpvalues win0 closureUpvs specs upvMap h = .ok (addrs, upvMap', h') →
    closedPreserved h h' := by
  intro specs
  induction specs with
  | nil =>
    intro upvMap h addrs upvMap' h' hok
    cases hok
    exact closedPreserved_refl _
  | cons reg rest ih =>
    intro upvMap h addrs upvMap' h' hok
    rw [buildUpvalues] at hok
    split at hok
    · split at hok
      · split at hok
        · cases hok
        case _ heq2 =>
          cases hok
          exact ih _ _ _ _ _ heq2
      · split at hok
        · cases hok
        case _ heq2 =>
          cases hok
          exact closedPreserved_trans (closedPreserved_append h _)
            (ih _ _ _ _ _ heq2)
    · split at hok
      · cases hok
      · split at hok
        · cases hok
        case _ heq2 =>
          cases hok
          exact ih _ _ _ _ _ heq2

theorem toStep_ne_next (e : VMErr) (s' : VMState) : e.toStep ≠ .next s' := by
  cases e <;> simp [VMErr.toStep]

theorem toStep_ne_done (e : VMErr) (s' : VMState) : e.toStep ≠ .done s' := by
  cases e <;> simp [VMErr.toStep]

theorem ret_closedPreserved (s : VMState) (program : Program) (retVal : Value)
    (s' : VMState) (hok : s.ret program retVal = .ok s') :
    closedPreserved s.heap s'.heap := by
  rw [VMState.ret] at hok
  split at hok
  · cases hok
  · split at hok
    · cases hok
    · split at hok
      · cases hok
      case _ heap2 heq =>
        split at hok
        case _ =>
          split at hok
          · cases hok
          case _ =>
            split at hok
            · cases hok
              exact closeUpvalues_closedPreserved _ _ _ _ _ heq
            · cases hok
        case _ => cases hok

/-- `VMState::call` never touches the heap. -/
theorem call_heap_eq (s : VMState) (program : Program) (funcAddr : Nat)
    (argsStart : Nat) (retReg : Option Nat) :
    (s.call program funcAddr argsStart retReg).heap = s.heap := by
  rw [VMState.call]
  split <;> rfl

theorem doCall_closedPreserved (natImpl : NativeImpl) (program : Program)
    (s : VMState) (funcVal : Value) (argsStart argsCnt rout pcAfter : Nat)
    (s' : VMState) (hnat : closedPreservingNat natImpl)
    (hok : doCall natImpl program s funcVal argsStart argsCnt rout pcAfter =
      .next s') :
    closedPreserved s.heap s'.heap := by
  rw [doCall.eq_def] at hok
  repeat' split at hok
  all_goals try exact absurd hok (toStep_ne_next _ _)
  all_goals cases hok
  all_goals first
    | (rw [call_heap_eq]; exact closedPreserved_refl _)
    | exact hnat _ _ _ _ _ (by assumption)

theorem binOpStep_closedPreserved (program : Program) (s : VMState)
    (it : List Nat) (opfn : Value → Value → Option Value) (msg : String)
    (s' : VMState) (hok : binOpStep program s it opfn msg = .next s') :
    closedPreserved s.heap s'.heap := by
  rw [binOpStep.eq_def] at hok
  repeat' split at hok
  all_goals try exact absurd hok (toStep_ne_next _ _)
  all_goals cases hok
  all_goals
    exact closedPreserved_trans
      (regOrCst_closedPreserved _ _ _ _ _ _ (by assumption))
      (regOrCst_closedPreserved _ _ _ _ _ _ (by assumption))

theorem eqStep_closedPreserved (program : Program) (s : VMState)
    (it : List Nat) (negate : Bool) (s' : VMState)
    (hok : eqStep program s it negate = .next s') :
    closedPreserved s.heap s'.heap := by
  rw [eqStep.eq_def] at hok
  repeat' split at hok
  all_goals try exact absurd hok (toStep_ne_next _ _)
  all_goals cases hok
  all_goals
    exact closedPreserved_trans
      (regOrCst_closedPreserved _ _ _ _ _ _ (by assumption))
      (regOrCst_closedPreserved _ _ _ _ _ _ (by assumption))

theorem unOpStep_closedPreserved (program : Program) (s : VMState)
    (it : List Nat) (opfn : Value → Option Value) (msg : String)
    (s' : VMState) (hok : unOpStep program s it opfn msg = .next s') :
    closedPreserved s.heap s'.heap := by
  rw [unOpStep.eq_def] at hok
  repeat' split at hok
  all_goals try exact absurd hok (toStep_ne_next _ _)
  all_goals cases hok
  all_goals exact regOrCst_closedPreserved _ _ _ _ _ _ (by assumption)

theorem set_list_closedPreserved (h : Heap) (a : Nat) (es : List Value)
    (o : Obj) (hl : h[a]? = some (.list es)) :
    closedPreserved h (h.set a o) := by
  refine closedPreserved_set_unclosed h a o ?_
  rintro ⟨v, hv⟩
  rw [hv] at hl
  cases hl

set_option maxRecDepth 4000 in
theorem regOrCst_getElem?_preserved (regs : Registers) (chunk : Chunk)
    (h : Heap) (reg : Nat) (v : Value) (h' : Heap)
    (hok : regs.regOrCst chunk h reg = .ok (v, h'))
    (a : Nat) (o : Obj) (ha : h[a]? = some o) : h'[a]? = some o := by
  rw [Registers.regOrCst] at hok
  split at hok
  · split at hok
    · cases hok
      exact ha
    · cases hok
  · split at hok
    case _ k heq =>
      injection hok with hpair
      have h2 : h' = (k.toValue h).2 := (congrArg Prod.snd hpair).symm
      subst h2
      cases k <;>
        first
          | exact ha
          | (rw [ChunkConstant.toValue]
             exact (List.getElem?_append_left (mem_length_of_getElem? ha)).trans ha)
    case _ => cases hok

theorem binOpStep_ne_done (program : Program) (s : VMState) (it : List Nat)
    (opfn : Value → Value → Option Value) (msg : String) (s' : VMState) :
    binOpStep program s it opfn msg ≠ .done s' := by
  rw [binOpStep.eq_def]
  repeat' split
  all_goals first
    | exact toStep_ne_done _ _
    | simp

theorem eqStep_ne_done (program : Program) (s : VMState) (it : List Nat)
    (negate : Bool) (s' : VMState) :
    eqStep program s it negate ≠ .done s' := by
  rw [eqStep.eq_def]
  repeat' split
  all_goals first
    | exact toStep_ne_done _ _
    | simp

theorem unOpStep_ne_done (program : Program) (s : VMState) (it : List Nat)
    (opfn : Value → Option Value) (msg : String) (s' : VMState) :
    unOpStep program s it opfn msg ≠ .done s' := by
  rw [unOpStep.eq_def]
  repeat' split
  all_goals first
    | exact toStep_ne_done _ _
    | simp

theorem doCall_ne_done (natImpl : NativeImpl) (program : Program)
    (s : VMState) (funcVal : Value) (argsStart argsCnt rout pcAfter : Nat)
    (s' : VMState) :
    doCall natImpl program s funcVal argsStart argsCnt rout pcAfter ≠
      .done s' := by
  rw [doCall.eq_def]
  repeat' split
  all_goals first
    | exact toStep_ne_done _ _
    | simp

/-- The full observable effect of a successful `VMState::ret`: the upvalue
close loop ran, the frame was popped, the caller's window was restored with
the returned value stored in the saved register, and control returned to the
caller's chunk at the saved address. -/
theorem ret_effects (s : VMState) (program : Program) (retVal : Value)
    (s' : VMState) (cur prev : ExecRecord) (rest : List ExecRecord)
    (hcalls : s.calls = cur :: prev :: rest)
    (hok : s.ret program retVal = .ok s') :
    ∃ heap2,
      closeUpvalues s.regs (curChunk program s) cur.upvalues s.heap =
        .ok heap2 ∧
      ∃ r, cur.returnParams = some r ∧
        s'.calls = prev :: rest ∧
        s'.heap = heap2 ∧
        s'.pc = r.add ∧
        s'.regs =
          (s.regs.resetWindow prev.regWin.1 prev.regWin.2).mutReg r.reg
            retVal ∧
        ∃ prevCid closUpvs,
          heap2[prev.closure]? = some (.closure prevCid closUpvs) ∧
          s'.chunkId = prevCid := by
  obtain ⟨regs0, cid0, pc0, calls0, ext0, heap0⟩ := s
  simp only at hcalls
  subst hcalls
  simp only [VMState.ret] at hok
  split at hok
  · cases hok
  case _ heap2 heqC =>
    split at hok
    case _ prevCid closUpvs heqClos =>
      split at hok
      · cases hok
      case _ r heqR =>
        split at hok
        · cases hok
          exact ⟨heap2, heqC, r, heqR, rfl, rfl, rfl, rfl, prevCid,
            closUpvs, heqClos, rfl⟩
        · cases hok
    case _ => cases hok

theorem ret_closedPreserved2 (s : VMState) (h0 : Heap) (program : Program)
    (retVal : Value) (s' : VMState)
    (hok : VMState.ret { s with pc := s.pc + 2, heap := h0 } program retVal =
      .ok s') :
    closedPreserved h0 s'.heap :=
  ret_closedPreserved _ _ _ _ hok

/-- Any `.next`/`.done` outcome of one interpreter iteration preserves
closedness of every closed upvalue (the one-way open-to-closed transition),
provided the natives do too. -/
theorem step_closedPreserved (natImpl : NativeImpl) (program : Program)
    (s s' : VMState) (hnat : closedPreservingNat natImpl)
    (hstep : runInstr natImpl program s = .next s' ∨
             runInstr natImpl program s = .done s') :
    closedPreserved s.heap s'.heap := by
  rcases hstep with hstep | hstep
  · simp only [runInstr] at hstep
    repeat' split at hstep
    all_goals try exact absurd hstep (toStep_ne_next _ _)
    all_goals try cases hstep
    all_goals first
      | exact closedPreserved_refl _
      | exact closedPreserved_append _ _
      | exact binOpStep_closedPreserved _ _ _ _ _ _ hstep
      | exact eqStep_closedPreserved _ _ _ _ _ hstep
      | exact unOpStep_closedPreserved _ _ _ _ _ _ hstep
      | exact ret_closedPreserved _ _ _ _ (by assumption)
      | exact regOrCst_closedPreserved _ _ _ _ _ _ (by assumption)
      | (rw [call_heap_eq]
         exact regOrCst_closedPreserved _ _ _ _ _ _ (by assumption))
      | exact closedPreserved_trans
          (regOrCst_closedPreserved _ _ _ _ _ _ (by assumption))
          (setUpvalue_closedPreserved _ _ _ _)
      | exact closedPreserved_trans
          (regOrCst_closedPreserved _ _ _ _ _ _ (by assumption))
          (ret_closedPreserved2 _ _ _ _ _ (by assumption))
      | exact closedPreserved_trans
          (regOrCst_closedPreserved _ _ _ _ _ _ (by assumption))
          (doCall_closedPreserved _ _ _ _ _ _ _ _ _ hnat hstep)
      | exact closedPreserved_trans
          (buildUpvalues_closedPreserved _ _ _ _ _ _ _ _ (by assumption))
          (closedPreserved_append _ _)
      | exact closedPreserved_trans
          (regOrCst_closedPreserved _ _ _ _ _ _ (by assumption))
          (set_list_closedPreserved _ _ _ _ (by assumption))
      | exact closedPreserved_trans
          (regOrCst_closedPreserved _ _ _ _ _ _ (by assumption))
          (regOrCst_closedPreserved _ _ _ _ _ _ (by assumption))
      | exact closedPreserved_trans
          (regOrCst_closedPreserved _ _ _ _ _ _ (by assumption))
          (hnat _ _ _ _ _ (by assumption))
      | exact closedPreserved_trans
          (regOrCst_closedPreserved _ _ _ _ _ _ (by assumption))
          (closedPreserved_trans
            (regOrCst_closedPreserved _ _ _ _ _ _ (by assumption))
            (closedPreserved_trans
              (regOrCst_closedPreserved _ _ _ _ _ _ (by assumption))
              (set_list_closedPreserved _ _ _ _
                (regOrCst_getElem?_preserved _ _ _ _ _ _ (by assumption) _ _
                  (regOrCst_getElem?_preserved _ _ _ _ _ _ (by assumption)
                    _ _ (by assumption))))))
  · simp only [runInstr] at hstep
    repeat' split at hstep
    all_goals try exact absurd hstep (toStep_ne_done _ _)
    all_goals try exact absurd hstep (binOpStep_ne_done _ _ _ _ _ _)
    all_goals try exact absurd hstep (eqStep_ne_done _ _ _ _ _)
    all_goals try exact absurd hstep (unOpStep_ne_done _ _ _ _ _ _)
    all_goals try exact absurd hstep (doCall_ne_done _ _ _ _ _ _ _ _ _)
    all_goals cases hstep
    all_goals exact closedPreserved_refl _

/-! Concrete fixtures for the upvalue-lifecycle witnesses. -/

/-- A native-function semantics that rejects every call (no natives are
needed by the witnesses). -/
def natImpl0 : NativeImpl :=
  fun _ _ _ => .error (.err ⟨.Execution, "unavailable", 0⟩)

theorem natImpl0_closedPreserving : closedPreservingNat natImpl0 :=
  fun _ _ _ _ _ h => nomatch h

/-- One chunk of three `Nop`s. -/
def progNop : Program := ⟨false, [⟨2, [], [], [0, 0, 0], ChunkInfo.empty⟩]⟩

/-- A state about to run the first `Nop` of `progNop`. -/
def stateNop : VMState := ⟨⟨[.nil], 0⟩, 0, 0, [], [], []⟩

/-- A frame of `progNop` whose upvalue map sends register 0 to the open
upvalue at heap address 1, returning to `(pc 1, register 0)`. -/
def frameCur : ExecRecord := ⟨0, [(0, 1)], some ⟨1, 0⟩, (1, 2)⟩

/-- The caller's frame under `frameCur`. -/
def framePrev : ExecRecord := ⟨0, [], none, (0, 2)⟩

/-- A state ready to return from `frameCur`: heap address 1 holds an *open*
upvalue onto absolute register slot 1. -/
def stateRet : VMState :=
  ⟨⟨[.int 7, .int 8], 1⟩, 0, 3, [frameCur, framePrev], [],
    [.closure 0 [], .upval (.onStack 1)]⟩

/-- What `stateRet.ret progNop .nil` produces: frame popped, the upvalue at
address 1 closed over the register's value `8`. -/
def stateRet' : VMState :=
  ⟨⟨[.nil, .nil], 0⟩, 0, 1, [framePrev], [],
    [.closure 0 [], .upval (.onHeap (.int 8))]⟩

theorem stateRet_ret_eq : stateRet.ret progNop .nil = .ok stateRet' := rfl

/-- **C3**: returning from a frame closes every upvalue of that frame (each
entry of the frame's register-to-upvalue map points — as the `Func`
instruction guarantees — at a live heap object, and afterwards holds the
owned value); one interpreter step never un-closes a closed upvalue
(the open → closed transition is one-way), provided the native functions
preserve closedness; and a write to a (stale) register slot does not change
what is read through a closed upvalue. -/
theorem upvalue_close_one_way_spec :
    (∀ (program : Program) (s : VMState) (retVal : Value) (s' : VMState)
        (cur prev : ExecRecord) (rest : List ExecRecord),
        s.calls = cur :: prev :: rest →
        (∀ p ∈ cur.upvalues, p.2 < s.heap.length) →
        s.ret program retVal = .ok s' →
        ∀ p ∈ cur.upvalues, isClosed s'.heap p.2) ∧
    (∀ (natImpl : NativeImpl) (program : Program) (s s' : VMState),
        closedPreservingNat natImpl →
        (runInstr natImpl program s = .next s' ∨
         runInstr natImpl program s = .done s') →
        closedPreserved s.heap s'.heap) ∧
    (∀ (regs : Registers) (h : Heap) (addr reg : Nat) (w : Value),
        isClosed h addr →
        readUpvalueAt (regs.mutReg reg w) h addr =
          readUpvalueAt regs h addr) := by
  refine ⟨?_, ?_, ?_⟩
  · intro program s retVal s' cur prev rest hcalls hlive hok p hp
    obtain ⟨heap2, heqC, _, _, _, hheap, _⟩ :=
      ret_effects s program retVal s' cur prev rest hcalls hok
    rw [hheap]
    exact closeUpvalues_closes s.regs (curChunk program s) cur.upvalues
      s.heap heap2 heqC hlive p hp
  · intro natImpl program s s' hnat hstep
    exact step_closedPreserved natImpl program s s' hnat hstep
  · rintro regs h addr reg w ⟨v, hv⟩
    rw [readUpvalueAt, readUpvalueAt, hv]
    rfl

theorem upvalue_close_one_way_spec_witness :
    isClosed stateRet'.heap 1 ∧
    closedPreserved stateNop.heap stateNop.heap ∧
    readUpvalueAt
        (Registers.mutReg ⟨[Value.nil], 0⟩ 0 (.int 9))
        [Obj.closure 0 [], Obj.upval (.onHeap (.int 5))] 1 =
      readUpvalueAt ⟨[Value.nil], 0⟩
        [Obj.closure 0 [], Obj.upval (.onHeap (.int 5))] 1 := by
  refine ⟨?_, ?_, ?_⟩
  · exact upvalue_close_one_way_spec.1 progNop stateRet .nil stateRet'
      frameCur framePrev [] rfl (by decide) stateRet_ret_eq (0, 1)
      (by decide)
  · exact upvalue_close_one_way_spec.2.1 natImpl0 progNop stateNop
      { stateNop with pc := 1 } natImpl0_closedPreserving (Or.inl rfl)
  · exact upvalue_close_one_way_spec.2.2 ⟨[Value.nil], 0⟩
      [Obj.closure 0 [], Obj.upval (.onHeap (.int 5))] 1 0 (.int 9)
      ⟨.int 5, rfl⟩

/-! Fixtures for the `CallMethod` witness: external slot 0 holds a
namespace whose entry 0 is a closure of chunk 1. -/

/-- Two chunks: the main chunk's code is one `CallMethod 0, 0, 1, 2, 1, 3`
instruction (one explicit argument, `n = 1`); chunk 1 is the method body. -/
def progCM : Program :=
  ⟨false, [⟨4, [], [], [31, 0, 0, 0, 1, 2, 1, 3], ChunkInfo.empty⟩,
    ⟨2, [], [], [], ChunkInfo.empty⟩]⟩

/-- About to execute the `CallMethod`: the heap holds the namespace object
(address 0, entry 0 pointing at the closure at address 1) and the method
closure (address 1); register 1 holds the receiver `7`, register 2 — the
start of the compiler's argument block — the first argument `4`. -/
def stateCM : VMState :=
  ⟨⟨[.nil, .int 7, .int 4, .nil], 0⟩, 0, 0, [], [.obj 0],
    [.nsObj [.obj 1], .closure 1 []]⟩

/-- **C2** (the `CallMethod` dispatch is *modelled from the spec* — the
`InstrType` enum and `run_program` of `src/vm/mod.rs` predate the compiler's
`CallMethod` emission and lack the arm): when the next instruction is
`CallMethod ns, prop, this, args_start, n, d` and the namespace lookup
`external[ns]`, its property lookup `entries[prop]` and the receiver
evaluation succeed, the step is *exactly* `doCall` — the dispatch of the
`Call` arm — applied after *inserting* the receiver at register
`args_start` (the compiler's argument block `[args_start, args_start+n)`
shifts up one slot, so no argument is lost), with `n + 1` arguments and
destination `d`; and the `Call` instruction itself is exactly `doCall` on
its operands. -/
theorem callmethod_spec :
    (∀ (natImpl : NativeImpl) (program : Program) (s : VMState)
        (ns0 ns1 prop thisb as0 n rout : Nat) (rest : List Nat)
        (nsAddr : Nat) (entries : List Value) (f : Value)
        (thisVal : Value) (h1 : Heap),
        (curChunk program s).code.drop s.pc =
          31 :: ns0 :: ns1 :: prop :: thisb :: as0 :: n :: rout :: rest →
        s.external[ns0 + 256 * ns1]? = some (.obj nsAddr) →
        s.heap[nsAddr]? = some (.nsObj entries) →
        entries[prop]? = some f →
        s.regs.regOrCst (curChunk program s) s.heap thisb =
          .ok (thisVal, h1) →
        runInstr natImpl program s =
          doCall natImpl program
            { s with regs := s.regs.insertReg as0 thisVal, heap := h1 }
            f as0 (n + 1) rout (s.pc + 8)) ∧
    (∀ (natImpl : NativeImpl) (program : Program) (s : VMState)
        (fb as0 n rout : Nat) (rest : List Nat) (fv : Value) (h1 : Heap),
        (curChunk program s).code.drop s.pc =
          22 :: fb :: as0 :: n :: rout :: rest →
        s.regs.regOrCst (curChunk program s) s.heap fb = .ok (fv, h1) →
        runInstr natImpl program s =
          doCall natImpl program { s with heap := h1 } fv as0 n rout
            (s.pc + 5)) := by
  constructor
  · intro natImpl program s ns0 ns1 prop thisb as0 n rout rest nsAddr
      entries f thisVal h1 hcode hns hobj hprop hthis
    simp only [runInstr, hcode, hns, hobj, hprop, hthis]
    cases f <;> rfl
  · intro natImpl program s fb as0 n rout rest fv h1 hcode hreg
    simp only [runInstr, hcode, hreg]

theorem callmethod_spec_witness :
    (runInstr natImpl0 progCM stateCM =
      doCall natImpl0 progCM
        { stateCM with regs := stateCM.regs.insertReg 2 (.int 7), heap := stateCM.heap }
        (.obj 1) 2 (1 + 1) 3 (stateCM.pc + 8)) ∧
    (stateCM.regs.insertReg 2 (.int 7)).regRange 2 2 = [.int 7, .int 4] :=
  ⟨callmethod_spec.1 natImpl0 progCM stateCM 0 0 0 1 2 1 3 [] 0
    [.obj 1] (.obj 1) (.int 7) stateCM.heap rfl rfl rfl rfl rfl,
   by decide⟩

/-! Fixture for the `ListSet` witness: `R0` holds an empty list, `R1` the
index `0`, `R2` the value to store. -/

/-- One chunk whose code is the single instruction `ListSet 0, 1, 2`. -/
def progLS : Program :=
  ⟨false, [⟨3, [], [], [27, 0, 1, 2, 0], ChunkInfo.empty⟩]⟩

/-- About to execute the `ListSet` on the empty list at heap address 0. -/
def stateLS : VMState :=
  ⟨⟨[.obj 0, .int 0, .int 5], 0⟩, 0, 0, [], [], [.list []]⟩

/-- **C5** (the dispatch glue of the arm is *modelled from the spec* — the
`run_program` match in `src/vm/mod.rs` has no `ListSet` arm at all — but
the bounds check itself is `List::set` from `src/vm/object.rs`, modelled by
`listSetRs`): with the next instruction `ListSet list, idx, s`, the list,
index and source operands all evaluating successfully and a non-negative
index, an in-range index stores `R_or_const[s]` into the list; an
out-of-range index, however, does **not** raise an Execution error — the
`ok_or_else` closure of `List::set` calls `self.len()` while the element
vector is still mutably borrowed, so the `RefCell` panics with "already
mutably borrowed" and the VM never constructs the intended error. -/
theorem listset_spec :
    ∀ (natImpl : NativeImpl) (program : Program) (s : VMState)
      (l i srcb : Nat) (rest : List Nat) (lAddr : Nat)
      (elems : List Value) (ii : Int) (v : Value) (h1 h2 h3 : Heap),
      (curChunk program s).code.drop s.pc = 27 :: l :: i :: srcb :: rest →
      s.regs.regOrCst (curChunk program s) s.heap l = .ok (.obj lAddr, h1) →
      h1[lAddr]? = some (.list elems) →
      s.regs.regOrCst (curChunk program s) h1 i = .ok (.int ii, h2) →
      (0 : Int) ≤ ii →
      s.regs.regOrCst (curChunk program s) h2 srcb = .ok (v, h3) →
      ((ii.toNat < elems.length →
          runInstr natImpl program s =
            .next { s with heap := h3.set lAddr (.list (elems.set ii.toNat v)), pc := s.pc + 4 }) ∧
       (elems.length ≤ ii.toNat →
          runInstr natImpl program s = .panic "already mutably borrowed" ∧
          ∀ e, runInstr natImpl program s ≠ .fail e)) := by
  intro natImpl program s l i srcb rest lAddr elems ii v h1 h2 h3
    hcode hl hlist hi hpos hsrc
  have hbase :
      runInstr natImpl program s =
        match listSetRs elems ii.toNat v with
        | .error e => e.toStep
        | .ok elems2 =>
            .next { s with heap := h3.set lAddr (.list elems2), pc := s.pc + 4 } := by
    simp only [runInstr, hcode, hl, hlist, hi, hsrc]
    rw [if_neg (not_lt.mpr hpos)]
  constructor
  · intro hin
    rw [hbase, listSetRs, if_pos hin]
  · intro hout
    rw [hbase, listSetRs, if_neg (not_lt.mpr hout)]
    exact ⟨rfl, fun e h => by cases h⟩

theorem listset_spec_witness :
    runInstr natImpl0 progLS stateLS = .panic "already mutably borrowed" ∧
    ∀ e, runInstr natImpl0 progLS stateLS ≠ .fail e :=
  (listset_spec natImpl0 progLS stateLS 0 1 2 [0] 0 [] 0 (.int 5)
    stateLS.heap stateLS.heap stateLS.heap rfl rfl rfl rfl (by decide)
    rfl).2 (by decide)

/-! Fixtures for the implicit-return witness: a state of chunk 1 that has
run past its (empty) code, with `stateRet`'s frames and heap. -/

/-- Two chunks: chunk 0 (three `Nop`s) and the empty chunk 1. -/
def progIR : Program :=
  ⟨false, [⟨2, [], [], [0, 0, 0], ChunkInfo.empty⟩,
    ⟨2, [], [], [], ChunkInfo.empty⟩]⟩

/-- At the end of chunk 1's code, ready for the implicit return. -/
def stateIR : VMState :=
  ⟨⟨[.int 7, .int 8], 1⟩, 1, 0, [frameCur, framePrev], [],
    [.closure 0 [], .upval (.onStack 1)]⟩

/-- The result of `stateIR`'s implicit return: back in chunk 0 at
`frameCur`'s return address, frame popped, the upvalue closed, `nil` in
register 0. -/
def stateIR' : VMState :=
  ⟨⟨[.nil, .nil], 0⟩, 0, 1, [framePrev], [],
    [.closure 0 [], .upval (.onHeap (.int 8))]⟩

/-- A finished state: chunk 0, past the end of the code. -/
def stateDone : VMState := ⟨⟨[.nil], 0⟩, 0, 3, [], [], []⟩

/-- **C10**: reaching the end of a chunk's code without a `Ret` terminates
the run successfully when the current chunk is chunk 0, and otherwise
performs an implicit `ret NIL`; and a successful `ret` pops the frame,
closes its upvalues (addresses live, as the `Func` arm guarantees), resumes
the caller at the saved address and writes the returned value — `nil` here —
into the caller's saved return register. -/
theorem implicit_return_spec :
    (∀ (natImpl : NativeImpl) (program : Program) (s : VMState),
        (curChunk program s).code.length ≤ s.pc →
        s.chunkId = 0 →
        runInstr natImpl program s = .done s) ∧
    (∀ (natImpl : NativeImpl) (program : Program) (s s' : VMState),
        (curChunk program s).code.length ≤ s.pc →
        s.chunkId ≠ 0 →
        s.ret program .nil = .ok s' →
        runInstr natImpl program s = .next s') ∧
    (∀ (program : Program) (s s' : VMState) (cur prev : ExecRecord)
        (rest : List ExecRecord) (r : ReturnParams),
        s.calls = cur :: prev :: rest →
        cur.returnParams = some r →
        (∀ p ∈ cur.upvalues, p.2 < s.heap.length) →
        s.ret program .nil = .ok s' →
        s'.calls = prev :: rest ∧
        (∀ p ∈ cur.upvalues, isClosed s'.heap p.2) ∧
        s'.pc = r.add ∧
        s'.regs =
          (s.regs.resetWindow prev.regWin.1 prev.regWin.2).mutReg r.reg
            .nil) := by
  refine ⟨?_, ?_, ?_⟩
  · intro natImpl program s hend hzero
    have hnil : (curChunk program s).code.drop s.pc = [] :=
      List.drop_eq_nil_of_le hend
    simp [runInstr, hnil, hzero]
  · intro natImpl program s s' hend hnz hret
    have hnil : (curChunk program s).code.drop s.pc = [] :=
      List.drop_eq_nil_of_le hend
    simp only [runInstr, hnil, hret]
    rw [if_neg hnz]
  · intro program s s' cur prev rest r hcalls hr hlive hret
    obtain ⟨heap2, heqC, r2, hr2, hcalls', hheap, hpc, hregs, _⟩ :=
      ret_effects s program .nil s' cur prev rest hcalls hret
    rw [hr] at hr2
    injection hr2 with hr2
    subst hr2
    refine ⟨hcalls', ?_, hpc, hregs⟩
    rw [hheap]
    exact closeUpvalues_closes s.regs (curChunk program s) cur.upvalues
      s.heap heap2 heqC hlive

theorem implicit_return_spec_witness :
    runInstr natImpl0 progIR stateDone = .done stateDone ∧
    runInstr natImpl0 progIR stateIR = .next stateIR' ∧
    stateIR'.calls = [framePrev] ∧
    isClosed stateIR'.heap 1 ∧
    stateIR'.pc = 1 ∧
    stateIR'.regs =
      (stateIR.regs.resetWindow framePrev.regWin.1
        framePrev.regWin.2).mutReg 0 .nil := by
  have h3 := implicit_return_spec.2.2 progIR stateIR stateIR' frameCur
    framePrev [] ⟨1, 0⟩ rfl rfl (by decide) rfl
  exact ⟨implicit_return_spec.1 natImpl0 progIR stateDone (by decide) rfl,
    implicit_return_spec.2.1 natImpl0 progIR stateIR stateIR' (by decide)
      (by decide) rfl,
    h3.1, h3.2.1 (0, 1) (by decide), h3.2.2.1, h3.2.2.2⟩

end Hissy
